import Mathlib

/-!
Verification of the HNSW graph-linear-builder core
(`lib/segment/src/index/hnsw_index/graph_linear_builder.rs`), the GPU vector
storage upload routine (`gpu/gpu_vector_storage.rs`), and related claims.

Machine scores (Rust `ScoreType = f32`, used only through comparisons here)
are embedded as `Int`.  Collaborator components whose sources are not part of
this tree (`FixedLengthPriorityQueue`, `EntryPoints`, `FilteredScorer`,
`VisitedPool`, the gpu buffer primitives) are modelled from the
specification, as indicated on each definition.
-/

namespace HnswSpec

/-- Point offsets (`PointOffsetType`) are dense non-negative integers. -/
abbrev PointOffsetType := Nat

/-- Scores (`ScoreType`); comparisons only, embedded as integers. -/
abbrev ScoreType := Int

/-- A `(point id, score)` pair, mirroring `ScoredPointOffset` in the source. -/
structure ScoredPointOffset where
  idx : PointOffsetType
  score : ScoreType
deriving DecidableEq, Repr

/-- Modelled from the spec: the total order on scored offsets — "total order
by `score` with tie-break by `id`" (§4.1). -/
def spoLe (a b : ScoredPointOffset) : Prop :=
  a.score < b.score ∨ (a.score = b.score ∧ a.idx ≤ b.idx)

instance (a b : ScoredPointOffset) : Decidable (spoLe a b) :=
  inferInstanceAs (Decidable (a.score < b.score ∨ (a.score = b.score ∧ a.idx ≤ b.idx)))

/-- The reversed order, used for descending-sorted lists. -/
def spoGe (a b : ScoredPointOffset) : Prop := spoLe b a

instance (a b : ScoredPointOffset) : Decidable (spoGe a b) :=
  inferInstanceAs (Decidable (spoLe b a))

instance : IsTotal ScoredPointOffset spoGe :=
  ⟨fun a b => by
    simp only [spoGe, spoLe]
    rcases lt_trichotomy a.score b.score with h | h | h
    · exact Or.inr (Or.inl h)
    · rcases Nat.le_total a.idx b.idx with hi | hi
      · exact Or.inr (Or.inr ⟨h, hi⟩)
      · exact Or.inl (Or.inr ⟨h.symm, hi⟩)
    · exact Or.inl (Or.inl h)⟩

instance : IsTrans ScoredPointOffset spoGe :=
  ⟨fun a b c h1 h2 => by
    simp only [spoGe, spoLe] at *
    rcases h2 with h2 | ⟨h2e, h2i⟩
    · rcases h1 with h1 | ⟨h1e, _⟩
      · exact Or.inl (h2.trans h1)
      · exact Or.inl (h1e ▸ h2)
    · rcases h1 with h1 | ⟨h1e, h1i⟩
      · exact Or.inl (h2e ▸ h1)
      · exact Or.inr ⟨h2e.trans h1e, h2i.trans h1i⟩⟩

/-- Descending insertion used to model ordered containers deterministically
(spec §4.1: every heap, sort and queue breaks ties by id). -/
def insertDesc (x : ScoredPointOffset) (l : List ScoredPointOffset) :
    List ScoredPointOffset :=
  List.orderedInsert spoGe x l

/-- Sorted-descending predicate for scored offsets. -/
def SortedDesc (l : List ScoredPointOffset) : Prop := l.Sorted spoGe

/-- Modelled from the spec: the descending-iteration model of a Rust
`BinaryHeap` drained through `into_sorted_vec().into_iter().rev()`:
elements are kept sorted in descending `(score, id)` order. -/
def heapSortedDesc (l : List ScoredPointOffset) : List ScoredPointOffset :=
  l.foldl (fun acc x => insertDesc x acc) []

/-- Modelled from the spec (§4.4): the filtered scorer façade.  `admits` is
the admissibility predicate, `score_point` scores a stored id against the
query, `score_internal` scores two stored ids against each other. -/
structure FilteredScorer where
  admits : PointOffsetType → Bool
  score_point : PointOffsetType → ScoreType
  score_internal : PointOffsetType → PointOffsetType → ScoreType

/-- Modelled from the spec (§4.4): `score_points` filters out inadmissible
ids before scoring and returns at most `limit` scored offsets. -/
def FilteredScorer.score_points (s : FilteredScorer) (ids : List PointOffsetType)
    (limit : Nat) : List ScoredPointOffset :=
  ((ids.filter s.admits).take limit).map (fun id => ⟨id, s.score_point id⟩)

/-- The selection loop of `select_candidate_with_heuristic_from_sorted`:
consume candidates in the given order; stop once `m` ids are selected;
accept a candidate iff its score against every already-selected id does not
exceed its query score. -/
def selectLoop (scorer : FilteredScorer) (m : Nat) :
    List ScoredPointOffset → List PointOffsetType → List PointOffsetType
  | [], result => result
  | c :: rest, result =>
    if m ≤ result.length then result
    else if ∀ s ∈ result, scorer.score_internal c.idx s ≤ c.score then
      selectLoop scorer m rest (result ++ [c.idx])
    else
      selectLoop scorer m rest result

/-- `select_candidate_with_heuristic_from_sorted` from the source: run the
selection loop over an already-sorted candidate sequence. -/
def select_candidate_with_heuristic_from_sorted (scorer : FilteredScorer)
    (candidates : List ScoredPointOffset) (m : Nat) : List PointOffsetType :=
  selectLoop scorer m candidates []

/-- Modelled from the spec (§4.3): the bounded top-K queue.  Elements are
kept sorted in descending `(score, id)` order, so iteration yields them in
descending score order; the minimum ("worst of the best") is the last
element. -/
structure FixedLengthPriorityQueue where
  capacity : Nat
  elems : List ScoredPointOffset

/-- Modelled from the spec (§4.3): `push` inserts while below capacity
(returning `none`); at capacity it evicts and returns the minimum when the
new element's score is strictly greater, and otherwise rejects the new
element, returning it unchanged. -/
def FixedLengthPriorityQueue.push (q : FixedLengthPriorityQueue)
    (x : ScoredPointOffset) : FixedLengthPriorityQueue × Option ScoredPointOffset :=
  if q.elems.length < q.capacity then
    ({ q with elems := insertDesc x q.elems }, none)
  else
    match q.elems.getLast? with
    | none => (q, some x)
    | some worst =>
      if worst.score < x.score then
        ({ q with elems := insertDesc x q.elems.dropLast }, some worst)
      else
        (q, some x)

/-- Modelled from the spec (§4.3): `top` is the current minimum. -/
def FixedLengthPriorityQueue.top (q : FixedLengthPriorityQueue) :
    Option ScoredPointOffset :=
  q.elems.getLast?

/-- `select_candidates_with_heuristic` from the source: iterate the bounded
queue (descending) and feed it to the sorted-candidate selector. -/
def select_candidates_with_heuristic (candidates : FixedLengthPriorityQueue)
    (m : Nat) (scorer : FilteredScorer) : List PointOffsetType :=
  select_candidate_with_heuristic_from_sorted scorer candidates.elems m

/-- `process_candidate` from the source: push into `nearest`; if the push
displaced nothing, or displaced an element with a different id, also push
onto the frontier heap. -/
def process_candidate (nearest : FixedLengthPriorityQueue)
    (candidates : List ScoredPointOffset) (score_point : ScoredPointOffset) :
    FixedLengthPriorityQueue × List ScoredPointOffset :=
  let pushed := nearest.push score_point
  let was_added : Bool :=
    match pushed.2 with
    | none => true
    | some removed => decide (removed.idx ≠ score_point.idx)
  (pushed.1, if was_added then insertDesc score_point candidates else candidates)

/-- An entry point descriptor `(point_id, level)`. -/
structure EntryPoint where
  point_id : PointOffsetType
  level : Nat
deriving DecidableEq, Repr

/-- Modelled from the spec (§4.6): the entry-point registry holds candidate
seed descriptors. -/
structure EntryPoints where
  entry_points_num : Nat
  points : List EntryPoint
deriving DecidableEq, Repr

/-- Modelled from the spec (§4.6): `new_point` returns the first descriptor
whose point satisfies the predicate; if none exists the new point is
installed and `None` is returned; if the new point's level is higher than
the returned descriptor's, the descriptor is replaced after being
returned. -/
def EntryPoints.new_point (ep : EntryPoints) (point_id : PointOffsetType)
    (level : Nat) (pred : PointOffsetType → Bool) :
    Option EntryPoint × EntryPoints :=
  match ep.points.find? (fun d => pred d.point_id) with
  | none => (none, { ep with points := ep.points ++ [⟨point_id, level⟩] })
  | some d =>
    if d.level < level then
      (some d, { ep with points :=
        (ep.points.map (fun e => if e == d then ⟨point_id, level⟩ else e)) })
    else
      (some d, ep)

/-- The builder state: parameters plus the layered link store
(`point → layer → neighbor list`) and the entry-point registry.  The
visited pool is modelled per-search as a plain list of seen ids. -/
structure GraphLinearBuilder where
  m : Nat
  m0 : Nat
  ef_construct : Nat
  links_layers : List (List (List PointOffsetType))
  entry_points : EntryPoints

namespace GraphLinearBuilder

/-- `GraphLinearBuilder::new`: one slot per pre-sampled level, each slot a
vector of `level + 1` empty neighbor lists. -/
def new (levels : List Nat) (m m0 ef_construct entry_points_num : Nat) :
    GraphLinearBuilder :=
  { m, m0, ef_construct,
    links_layers := levels.map (fun level => List.replicate (level + 1) []),
    entry_points := ⟨entry_points_num, []⟩ }

/-- Read the neighbor list of `point_id` at `level` (empty when out of
range, mirroring untouched slots). -/
def getLinksD (b : GraphLinearBuilder) (point_id level : Nat) :
    List PointOffsetType :=
  (b.links_layers.getD point_id []).getD level []

/-- Overwrite the neighbor list of `point_id` at `level`. -/
def setLinks (b : GraphLinearBuilder) (point_id level : Nat)
    (links : List PointOffsetType) : GraphLinearBuilder :=
  { b with links_layers :=
      b.links_layers.set point_id ((b.links_layers.getD point_id []).set level links) }

/-- `get_m`: the per-layer neighbor budget, `m0` on layer 0 and `m` above. -/
def get_m (b : GraphLinearBuilder) (level : Nat) : Nat :=
  if level = 0 then b.m0 else b.m

/-- `get_point_level`: number of layers of a point minus one. -/
def get_point_level (b : GraphLinearBuilder) (point_id : PointOffsetType) : Nat :=
  (b.links_layers.getD point_id []).length - 1

/-- Total number of stored link entries; used to bound search fuel. -/
def totalLinkCount (b : GraphLinearBuilder) : Nat :=
  (b.links_layers.map (fun pl => (pl.map List.length).sum)).sum

/-- The unvisited-link gathering step of `search_on_level`: walk a neighbor
list, keep ids not yet in the visited set and mark them visited. -/
def collectUnvisited : List PointOffsetType → List PointOffsetType →
    List PointOffsetType × List PointOffsetType
  | [], visited => ([], visited)
  | l :: rest, visited =>
    if l ∈ visited then collectUnvisited rest visited
    else
      let r := collectUnvisited rest (l :: visited)
      (l :: r.1, r.2)

/-- The main loop of `search_on_level`: pop the best frontier candidate,
stop when it scores below the worst of the best, otherwise score its
unvisited neighbors and admit them.  `fuel` bounds the iteration count
(chosen large enough at the call site). -/
def searchLoop (b : GraphLinearBuilder) (scorer : FilteredScorer)
    (level limit : Nat) :
    Nat → FixedLengthPriorityQueue → List ScoredPointOffset →
    List PointOffsetType →
    FixedLengthPriorityQueue × List ScoredPointOffset × List PointOffsetType
  | 0, nearest, candidates, visited => (nearest, candidates, visited)
  | Nat.succ fuel, nearest, candidates, visited =>
    match candidates with
    | [] => (nearest, [], visited)
    | candidate :: rest =>
      let isBelow : Bool :=
        match nearest.top with
        | none => false
        | some worst => decide (candidate.score < worst.score)
      if isBelow then (nearest, rest, visited)
      else
        let cu := collectUnvisited (b.getLinksD candidate.idx level) visited
        let scored := scorer.score_points cu.1 limit
        let st := scored.foldl (fun st sp => process_candidate st.1 st.2 sp) (nearest, rest)
        searchLoop b scorer level limit fuel st.1 st.2 cu.2

/-- The pass over the new point's own existing links at this layer, run
after the main loop of `search_on_level`: any not-yet-visited existing link
is scored against the query and fed through the same admission. -/
def existingLinksPass (scorer : FilteredScorer) (visited : List PointOffsetType) :
    List PointOffsetType → FixedLengthPriorityQueue → List ScoredPointOffset →
    FixedLengthPriorityQueue × List ScoredPointOffset
  | [], nearest, candidates => (nearest, candidates)
  | l :: rest, nearest, candidates =>
    if l ∈ visited then existingLinksPass scorer visited rest nearest candidates
    else
      let st := process_candidate nearest candidates ⟨l, scorer.score_point l⟩
      existingLinksPass scorer visited rest st.1 st.2

/-- `search_on_level` from the source: beam search on one layer with beam
width `ef`, seeded at `level_entry`, followed by the existing-links pass. -/
def search_on_level (b : GraphLinearBuilder) (level_entry : ScoredPointOffset)
    (level ef : Nat) (scorer : FilteredScorer)
    (existing_links : List PointOffsetType) : FixedLengthPriorityQueue :=
  let visited0 := [level_entry.idx]
  let nearest0 := (FixedLengthPriorityQueue.mk ef []).push level_entry
  let fuel := 2 + b.totalLinkCount
  let st := searchLoop b scorer level (b.get_m level) fuel nearest0.1 [level_entry] visited0
  (existingLinksPass scorer st.2.2 existing_links st.1 st.2.1).1

/-- The maximum element of a list of scored offsets
(`nearest.iter().copied().max()`). -/
def listMaxSpo : List ScoredPointOffset → Option ScoredPointOffset
  | [] => none
  | x :: t =>
    match listMaxSpo t with
    | none => some x
    | some y => some (if spoLe x y then y else x)

/-- The per-insertion, per-level result, mirroring `GraphLinkResponse`. -/
structure GraphLinkResponse where
  point_id : PointOffsetType
  level : Nat
  entry : Option ScoredPointOffset
  links : List PointOffsetType
  neighbor_ids : List PointOffsetType
  neighbor_links : List (List PointOffsetType)

/-- The per-neighbor body of the linking loop in `link_on_level`: when the
chosen neighbor is below its budget, append the new point to its list;
otherwise gather the new point plus the neighbor's first `level_m` links,
scored by `score_internal` against the neighbor, into a heap drained in
descending order, and re-select with the heuristic. -/
def neighbor_update (b : GraphLinearBuilder) (point_id : PointOffsetType)
    (scorer : FilteredScorer) (level : Nat) (other_point : PointOffsetType) :
    List PointOffsetType :=
  let level_m := b.get_m level
  let other_point_links := b.getLinksD other_point level
  if other_point_links.length < level_m then
    other_point_links ++ [point_id]
  else
    let candidates := heapSortedDesc
      (⟨point_id, scorer.score_internal point_id other_point⟩ ::
        (other_point_links.take level_m).map
          (fun l => ⟨l, scorer.score_internal l other_point⟩))
    select_candidate_with_heuristic_from_sorted scorer candidates level_m

/-- `link_on_level` from the source: beam-search the layer, select forward
links with the heuristic, then for each chosen neighbor either append the
new point (when below budget) or re-select from the neighbor's candidates
scored against that neighbor. -/
def link_on_level (b : GraphLinearBuilder) (point_id : PointOffsetType)
    (scorer : FilteredScorer) (level : Nat) (entry : ScoredPointOffset) :
    GraphLinkResponse :=
  let existing_links := b.getLinksD point_id level
  let nearest_points := b.search_on_level entry level b.ef_construct scorer existing_links
  let level_m := b.get_m level
  let links := select_candidates_with_heuristic nearest_points level_m scorer
  let nb := links.foldl
    (fun (acc : List PointOffsetType × List (List PointOffsetType)) other_point =>
      (acc.1 ++ [other_point], acc.2 ++ [b.neighbor_update point_id scorer level other_point]))
    ([], [])
  { point_id, level,
    entry := listMaxSpo nearest_points.elems,
    links,
    neighbor_ids := nb.1,
    neighbor_links := nb.2 }

/-- `apply_link_response` from the source: install the new point's forward
links at the response's level, then each neighbor's updated list. -/
def apply_link_response (b : GraphLinearBuilder) (r : GraphLinkResponse) :
    GraphLinearBuilder :=
  (r.neighbor_ids.zip r.neighbor_links).foldl
    (fun bb p => bb.setLinks p.1 r.level p.2)
    (b.setLinks r.point_id r.level r.links)

/-- One greedy-descent pass at a single level of `search_entry`: rescan the
current best point's neighbors, adopting any strict improvement, until a
fixpoint; `fuel` bounds the iterations. -/
def searchEntryOnLevel (b : GraphLinearBuilder) (scorer : FilteredScorer)
    (limit level : Nat) : Nat → ScoredPointOffset → ScoredPointOffset
  | 0, current => current
  | Nat.succ fuel, current =>
    let scored := scorer.score_points (b.getLinksD current.idx level) limit
    let st := scored.foldl
      (fun (st : ScoredPointOffset × Bool) sp =>
        if st.1.score < sp.score then (sp, true) else st)
      (current, false)
    if st.2 then searchEntryOnLevel b scorer limit level fuel st.1 else st.1

/-- `rev_range(top, target)`: the levels `top, top - 1, …, target + 1`. -/
def rev_range (top target : Nat) : List Nat :=
  (List.range' (target + 1) (top - target)).reverse

/-- `search_entry` from the source: greedy descent from the entry point down
to one level above the target. -/
def search_entry (b : GraphLinearBuilder) (entry_point : PointOffsetType)
    (top_level target_level : Nat) (scorer : FilteredScorer) : ScoredPointOffset :=
  (rev_range top_level target_level).foldl
    (fun current level =>
      searchEntryOnLevel b scorer (b.get_m level) level (2 + b.totalLinkCount) current)
    ⟨entry_point, scorer.score_point entry_point⟩

/-- The layerwise linking loop of `link_new_point`, exposed as the list of
responses it applies: the response for the current level is computed, then
applied, and the anchor for the next level is the best of `nearest` when
available. -/
def link_responses (scorer : FilteredScorer) (point_id : PointOffsetType) :
    GraphLinearBuilder → Nat → ScoredPointOffset → List GraphLinkResponse
  | b, 0, e => [b.link_on_level point_id scorer 0 e]
  | b, Nat.succ curr, e =>
    let r := b.link_on_level point_id scorer (Nat.succ curr) e
    r :: link_responses scorer point_id (b.apply_link_response r) curr (r.entry.getD e)

/-- The anchor at the linking level: greedy descent when the entry point
sits above the new point's level, a direct score otherwise. -/
def level_entry_of (b : GraphLinearBuilder) (point_id : PointOffsetType)
    (scorer : FilteredScorer) (ep : EntryPoint) : ScoredPointOffset :=
  let level := b.get_point_level point_id
  if level < ep.level then
    b.search_entry ep.point_id ep.level level scorer
  else
    ⟨ep.point_id, scorer.score_internal point_id ep.point_id⟩

/-- The responses `link_new_point` applies once an entry point is found,
from `min(level, entry.level)` down to 0. -/
def responses_of (b : GraphLinearBuilder) (point_id : PointOffsetType)
    (scorer : FilteredScorer) (ep : EntryPoint) : List GraphLinkResponse :=
  let level := b.get_point_level point_id
  let b1 := { b with entry_points :=
    (b.entry_points.new_point point_id level scorer.admits).2 }
  link_responses scorer point_id b1 (min level ep.level) (b.level_entry_of point_id scorer ep)

/-- `link_new_point` from the source: consult the registry; absent an entry
point, return right away; otherwise derive the anchor and run the layerwise
linking loop, applying each response. -/
def link_new_point (b : GraphLinearBuilder) (point_id : PointOffsetType)
    (scorer : FilteredScorer) : GraphLinearBuilder :=
  let level := b.get_point_level point_id
  let res := b.entry_points.new_point point_id level scorer.admits
  let b1 : GraphLinearBuilder := { b with entry_points := res.2 }
  match res.1 with
  | none => b1
  | some ep => (b.responses_of point_id scorer ep).foldl apply_link_response b1

end GraphLinearBuilder

/-! GPU vector storage (`gpu/gpu_vector_storage.rs`).  Device buffers are
modelled as byte lists; `f32` cells are abstracted through an encoding
function producing 4 bytes per value. -/

/-- Little-endian byte encoding of a `u32` value. -/
def u32le (x : Nat) : List Nat :=
  [x % 256, x / 256 % 256, x / 65536 % 256, x / 16777216 % 256]

/-- Modelled from the spec: writing `data` into a fixed-size buffer at a
byte offset (`gpu::Buffer::upload` / `upload_slice`); bytes falling outside
the buffer are dropped, the buffer size never changes. -/
def bufWrite (buf : List Nat) (off : Nat) (data : List Nat) : List Nat :=
  buf.take off ++ data.take (buf.length - off) ++ buf.drop (off + data.length)

/-- Modelled from the spec: `copy_gpu_buffer(src, dst, src_offset,
dst_offset, size)` copies `size` bytes between buffers. -/
def copy_gpu_buffer (src dst : List Nat) (src_offset dst_offset size : Nat) :
    List Nat :=
  bufWrite dst dst_offset ((src.drop src_offset).take size)

/-- The `#[repr(C)]` uniform parameter struct: `dim` then `count`, two
`u32` fields. -/
structure GpuVectorParamsBuffer where
  dim : Nat
  count : Nat

/-- Byte layout of `GpuVectorParamsBuffer`: `dim` then `count`, tightly
packed little-endian `u32`s (8 bytes). -/
def GpuVectorParamsBuffer.bytes (p : GpuVectorParamsBuffer) : List Nat :=
  u32le p.dim ++ u32le p.count

/-- The byte encoding of one stored vector. -/
def encodeVector (enc : α → List Nat) (v : List α) : List Nat :=
  (v.map enc).flatten

/-- The per-vector upload loop of `GpuVectorStorage::new`: for each `i`
below `count`, write vector `i` into the staging buffer and copy
`dim * 4` bytes to the storage buffer at byte offset `i * dim * 4`.
The state is `(vectors_buffer, staging_buffer)`. -/
def uploadVectorsLoop (enc : α → List Nat) (dim : Nat) (vectors : List (List α))
    (count : Nat) (st : List Nat × List Nat) : List Nat × List Nat :=
  (List.range count).foldl
    (fun st i =>
      let staging := bufWrite st.2 0 (encodeVector enc (vectors.getD i []))
      (copy_gpu_buffer staging st.1 0 (i * dim * 4) (dim * 4), staging))
    st

/-- The observable result of `GpuVectorStorage::new`: the storage and
uniform buffers. -/
structure GpuVectorStorage where
  vectors_buffer : List Nat
  params_buffer : List Nat

/-- `GpuVectorStorage::new` from the source: allocate a `count * dim * 4`
byte storage buffer and an 8-byte uniform buffer; upload the params through
the single `dim * 4`-byte staging buffer, then upload each vector in turn
through the same staging buffer. -/
def GpuVectorStorage.new (enc : α → List Nat) (dim : Nat)
    (vectors : List (List α)) : GpuVectorStorage :=
  let count := vectors.length
  let vectors_buffer := List.replicate (dim * count * 4) 0
  let params_buffer := List.replicate 8 0
  let staging_buffer := List.replicate (dim * 4) 0
  let staging1 := bufWrite staging_buffer 0 (GpuVectorParamsBuffer.bytes ⟨dim, count⟩)
  let params1 := copy_gpu_buffer staging1 params_buffer 0 0 8
  let final := uploadVectorsLoop enc dim vectors count (vectors_buffer, staging1)
  ⟨final.1, params1⟩

/-! Concrete instances used by the claim witnesses and the counterexample. -/

/-- A concrete symmetric internal score: 10 for identical ids, 5 otherwise. -/
def siW (a b : Nat) : Int := if a = b then 10 else 5

/-- A concrete all-admitting scorer for inserting point `p`. -/
def scorerW (p : Nat) : FilteredScorer :=
  ⟨fun _ => true, fun id => siW id p, siW⟩

/-- A scorer whose filter rejects every id. -/
def scorerNone : FilteredScorer :=
  ⟨fun _ => false, fun id => siW id 0, siW⟩

/-- A fresh two-point, single-layer builder (`M = M0 = 4`,
`ef_construct = 4`). -/
def builderW0 : GraphLinearBuilder := GraphLinearBuilder.new [0, 0] 4 4 4 1

/-- The builder after inserting point 0 (registered as sole entry). -/
def builderW1 : GraphLinearBuilder := builderW0.link_new_point 0 (scorerW 0)

/-- The builder after additionally inserting point 1. -/
def builderW2 : GraphLinearBuilder := builderW1.link_new_point 1 (scorerW 1)

/-- The builder after replaying the insertion of point 1. -/
def builderW3 : GraphLinearBuilder := builderW2.link_new_point 1 (scorerW 1)


/-! ### Order, insertion and heap lemmas -/

theorem insertDesc_sorted {l : List ScoredPointOffset} (h : SortedDesc l)
    (x : ScoredPointOffset) : SortedDesc (insertDesc x l) :=
  List.Sorted.orderedInsert x l h

theorem insertDesc_perm (x : ScoredPointOffset) (l : List ScoredPointOffset) :
    List.Perm (insertDesc x l) (x :: l) :=
  List.perm_orderedInsert spoGe x l

theorem mem_insertDesc {a x : ScoredPointOffset} {l : List ScoredPointOffset} :
    a ∈ insertDesc x l ↔ a = x ∨ a ∈ l :=
  List.mem_orderedInsert spoGe

theorem insertDesc_length (x : ScoredPointOffset) (l : List ScoredPointOffset) :
    (insertDesc x l).length = l.length + 1 :=
  (insertDesc_perm x l).length_eq

theorem insertDesc_ne (x : ScoredPointOffset) (l : List ScoredPointOffset) :
    insertDesc x l ≠ l := by
  intro h
  have := insertDesc_length x l
  rw [h] at this
  omega

theorem insertDesc_idx_perm (x : ScoredPointOffset) (l : List ScoredPointOffset) :
    List.Perm ((insertDesc x l).map ScoredPointOffset.idx)
      (x.idx :: l.map ScoredPointOffset.idx) :=
  (insertDesc_perm x l).map ScoredPointOffset.idx

theorem heapSortedDesc_perm (l : List ScoredPointOffset) :
    List.Perm (heapSortedDesc l) l := by
  suffices h : ∀ acc : List ScoredPointOffset,
      List.Perm (l.foldl (fun acc x => insertDesc x acc) acc) (acc ++ l) by
    simpa using h []
  induction l with
  | nil => intro acc; simp
  | cons x t ih =>
    intro acc
    have step : (x :: t).foldl (fun acc x => insertDesc x acc) acc
        = t.foldl (fun acc x => insertDesc x acc) (insertDesc x acc) := rfl
    rw [step]
    refine (ih (insertDesc x acc)).trans ?_
    refine ((insertDesc_perm x acc).append_right t).trans ?_
    simpa using List.perm_middle.symm

theorem heapSortedDesc_sorted (l : List ScoredPointOffset) :
    SortedDesc (heapSortedDesc l) := by
  suffices h : ∀ acc : List ScoredPointOffset, SortedDesc acc →
      SortedDesc (l.foldl (fun acc x => insertDesc x acc) acc) by
    exact h [] (List.sorted_nil)
  induction l with
  | nil => intro acc hacc; exact hacc
  | cons x t ih => intro acc hacc; exact ih _ (insertDesc_sorted hacc x)

/-! ### Heuristic selection lemmas -/

theorem selectLoop_length_le (scorer : FilteredScorer) (m : Nat) :
    ∀ (l : List ScoredPointOffset) (res : List PointOffsetType),
      res.length ≤ m → (selectLoop scorer m l res).length ≤ m := by
  intro l
  induction l with
  | nil => intro res h; exact h
  | cons c rest ih =>
    intro res h
    unfold selectLoop
    split
    · exact h
    · split
      · apply ih
        simp only [List.length_append, List.length_singleton]
        omega
      · exact ih res h

theorem selectLoop_full (scorer : FilteredScorer) (m : Nat) :
    ∀ (l : List ScoredPointOffset) (res : List PointOffsetType),
      m ≤ res.length → selectLoop scorer m l res = res := by
  intro l
  induction l with
  | nil => intro res _; rfl
  | cons c rest _ =>
    intro res h
    unfold selectLoop
    rw [if_pos h]

theorem selectLoop_append (scorer : FilteredScorer) (m : Nat) :
    ∀ (l1 l2 : List ScoredPointOffset) (res : List PointOffsetType),
      selectLoop scorer m (l1 ++ l2) res = selectLoop scorer m l2 (selectLoop scorer m l1 res) := by
  intro l1
  induction l1 with
  | nil => intro l2 res; rfl
  | cons c rest ih =>
    intro l2 res
    by_cases h1 : m ≤ res.length
    · simp only [List.cons_append, selectLoop, if_pos h1]
      rw [selectLoop_full scorer m l2 res h1]
    · by_cases h2 : ∀ s ∈ res, scorer.score_internal c.idx s ≤ c.score
      · simp only [List.cons_append, selectLoop, if_neg h1, if_pos h2]
        exact ih l2 _
      · simp only [List.cons_append, selectLoop, if_neg h1, if_neg h2]
        exact ih l2 res

theorem selectLoop_step (scorer : FilteredScorer) (m : Nat)
    (c : ScoredPointOffset) (res : List PointOffsetType) :
    selectLoop scorer m [c] res =
      if res.length < m ∧ ∀ s ∈ res, scorer.score_internal c.idx s ≤ c.score
      then res ++ [c.idx] else res := by
  unfold selectLoop
  by_cases h1 : m ≤ res.length
  · rw [if_pos h1, if_neg]
    intro hc
    omega
  · rw [if_neg h1]
    by_cases h2 : ∀ s ∈ res, scorer.score_internal c.idx s ≤ c.score
    · rw [if_pos h2, if_pos ⟨by omega, h2⟩]
      rfl
    · rw [if_neg h2, if_neg]
      · rfl
      · intro hc
        exact h2 hc.2

theorem selectLoop_subset (scorer : FilteredScorer) (m : Nat) :
    ∀ (l : List ScoredPointOffset) (res : List PointOffsetType),
      ∀ x ∈ selectLoop scorer m l res, x ∈ res ∨ x ∈ l.map ScoredPointOffset.idx := by
  intro l
  induction l with
  | nil => intro res x hx; exact Or.inl hx
  | cons c rest ih =>
    intro res x hx
    unfold selectLoop at hx
    split at hx
    · exact Or.inl hx
    · split at hx
      · rcases ih _ x hx with h | h
        · rcases List.mem_append.mp h with h | h
          · exact Or.inl h
          · simp only [List.mem_singleton] at h
            exact Or.inr (by simp [h])
        · exact Or.inr (by simp [h])
      · rcases ih _ x hx with h | h
        · exact Or.inl h
        · exact Or.inr (by simp [h])

theorem selectLoop_nodup (scorer : FilteredScorer) (m : Nat) :
    ∀ (l : List ScoredPointOffset) (res : List PointOffsetType),
      (l.map ScoredPointOffset.idx).Nodup → res.Nodup →
      (∀ x ∈ res, x ∉ l.map ScoredPointOffset.idx) →
      (selectLoop scorer m l res).Nodup := by
  intro l
  induction l with
  | nil => intro res _ hres _; exact hres
  | cons c rest ih =>
    intro res hl hres hdisj
    have hl' : (rest.map ScoredPointOffset.idx).Nodup := by
      simpa using hl.of_cons
    have hcidx : c.idx ∉ rest.map ScoredPointOffset.idx := by
      simp only [List.map_cons, List.nodup_cons] at hl
      exact hl.1
    have hdisj' : ∀ x ∈ res, x ∉ rest.map ScoredPointOffset.idx := by
      intro x hx hm
      apply hdisj x hx
      simp only [List.map_cons, List.mem_cons]
      exact Or.inr hm
    have hcres : c.idx ∉ res := by
      intro hc
      exact hdisj c.idx hc (by simp)
    unfold selectLoop
    split
    · exact hres
    · split
      · apply ih _ hl'
        · refine List.Nodup.append hres (by simp) ?_
          intro x hx hxc
          simp only [List.mem_singleton] at hxc
          subst hxc
          exact hcres hx
        · intro x hx
          rcases List.mem_append.mp hx with h | h
          · exact hdisj' x h
          · simp only [List.mem_singleton] at h
            subst h
            exact hcidx
      · exact ih _ hl' hres hdisj'


/-! ### Bounded queue and candidate-processing lemmas -/

theorem push_elems_subset (q : FixedLengthPriorityQueue) (x : ScoredPointOffset) :
    ∀ a ∈ (q.push x).1.elems, a = x ∨ a ∈ q.elems := by
  unfold FixedLengthPriorityQueue.push
  split
  · intro a ha
    simpa using mem_insertDesc.mp ha
  · split
    · intro a ha
      exact Or.inr ha
    · split
      · intro a ha
        rcases mem_insertDesc.mp ha with h | h
        · exact Or.inl h
        · exact Or.inr (List.dropLast_subset _ h)
      · intro a ha
        exact Or.inr ha

theorem push_sorted {q : FixedLengthPriorityQueue} (h : SortedDesc q.elems)
    (x : ScoredPointOffset) : SortedDesc (q.push x).1.elems := by
  unfold FixedLengthPriorityQueue.push
  split
  · exact insertDesc_sorted h x
  · split
    · exact h
    · split
      · exact insertDesc_sorted (h.sublist (List.dropLast_sublist _)) x
      · exact h

theorem push_idx_nodup {q : FixedLengthPriorityQueue} {x : ScoredPointOffset}
    (h : (q.elems.map ScoredPointOffset.idx).Nodup)
    (hx : x.idx ∉ q.elems.map ScoredPointOffset.idx) :
    ((q.push x).1.elems.map ScoredPointOffset.idx).Nodup := by
  unfold FixedLengthPriorityQueue.push
  split
  · rw [(insertDesc_idx_perm x q.elems).nodup_iff]
    exact List.nodup_cons.mpr ⟨hx, h⟩
  · split
    · exact h
    · split
      · rw [(insertDesc_idx_perm x q.elems.dropLast).nodup_iff]
        refine List.nodup_cons.mpr ⟨?_, ?_⟩
        · intro hmem
          exact hx (((List.dropLast_sublist q.elems).map ScoredPointOffset.idx).subset hmem)
        · exact h.sublist ((List.dropLast_sublist q.elems).map ScoredPointOffset.idx)
      · exact h

theorem process_candidate_fst (n : FixedLengthPriorityQueue)
    (c : List ScoredPointOffset) (sp : ScoredPointOffset) :
    (process_candidate n c sp).1 = (n.push sp).1 := rfl

theorem process_candidate_elems_subset (n : FixedLengthPriorityQueue)
    (c : List ScoredPointOffset) (sp : ScoredPointOffset) :
    ∀ a ∈ (process_candidate n c sp).1.elems, a = sp ∨ a ∈ n.elems :=
  push_elems_subset n sp

theorem process_candidate_cands_subset (n : FixedLengthPriorityQueue)
    (c : List ScoredPointOffset) (sp : ScoredPointOffset) :
    ∀ a ∈ (process_candidate n c sp).2, a = sp ∨ a ∈ c := by
  unfold process_candidate
  dsimp only
  split
  · intro a ha
    simpa using mem_insertDesc.mp ha
  · intro a ha
    exact Or.inr ha

theorem process_candidate_sorted {n : FixedLengthPriorityQueue}
    (h : SortedDesc n.elems) (c : List ScoredPointOffset) (sp : ScoredPointOffset) :
    SortedDesc (process_candidate n c sp).1.elems :=
  push_sorted h sp

theorem process_candidate_idx_nodup {n : FixedLengthPriorityQueue}
    {sp : ScoredPointOffset} (h : (n.elems.map ScoredPointOffset.idx).Nodup)
    (hx : sp.idx ∉ n.elems.map ScoredPointOffset.idx) (c : List ScoredPointOffset) :
    ((process_candidate n c sp).1.elems.map ScoredPointOffset.idx).Nodup :=
  push_idx_nodup h hx

theorem pcFold_sorted :
    ∀ (batch : List ScoredPointOffset) (n : FixedLengthPriorityQueue)
      (c : List ScoredPointOffset), SortedDesc n.elems →
      SortedDesc ((batch.foldl (fun st sp => process_candidate st.1 st.2 sp) (n, c)).1.elems) := by
  intro batch
  induction batch with
  | nil => intro n c h; exact h
  | cons b t ih =>
    intro n c h
    exact ih (process_candidate n c b).1 (process_candidate n c b).2 (push_sorted h b)

theorem pcFold_inv (V : List PointOffsetType) :
    ∀ (batch : List ScoredPointOffset) (n : FixedLengthPriorityQueue)
      (c : List ScoredPointOffset),
      (n.elems.map ScoredPointOffset.idx).Nodup →
      (∀ sp ∈ n.elems, sp.idx ∈ V) →
      (∀ sp ∈ c, sp.idx ∈ V) →
      (batch.map ScoredPointOffset.idx).Nodup →
      (∀ sp ∈ batch, sp.idx ∈ V ∧ sp.idx ∉ n.elems.map ScoredPointOffset.idx) →
      ((((batch.foldl (fun st sp => process_candidate st.1 st.2 sp) (n, c)).1.elems.map
          ScoredPointOffset.idx).Nodup)
        ∧ (∀ sp ∈ (batch.foldl (fun st sp => process_candidate st.1 st.2 sp) (n, c)).1.elems,
            sp.idx ∈ V)
        ∧ (∀ sp ∈ (batch.foldl (fun st sp => process_candidate st.1 st.2 sp) (n, c)).2,
            sp.idx ∈ V)) := by
  intro batch
  induction batch with
  | nil => intro n c hn hnV hcV _ _; exact ⟨hn, hnV, hcV⟩
  | cons b t ih =>
    intro n c hn hnV hcV hbn hbV
    have hb := hbV b (by simp)
    have hbn' : (t.map ScoredPointOffset.idx).Nodup := by
      simpa using hbn.of_cons
    have hbidx : b.idx ∉ t.map ScoredPointOffset.idx := by
      simp only [List.map_cons, List.nodup_cons] at hbn
      exact hbn.1
    have hn' := process_candidate_idx_nodup hn hb.2 c
    have hnV' : ∀ sp ∈ (process_candidate n c b).1.elems, sp.idx ∈ V := by
      intro sp hsp
      rcases process_candidate_elems_subset n c b sp hsp with h | h
      · subst h; exact hb.1
      · exact hnV sp h
    have hcV' : ∀ sp ∈ (process_candidate n c b).2, sp.idx ∈ V := by
      intro sp hsp
      rcases process_candidate_cands_subset n c b sp hsp with h | h
      · subst h; exact hb.1
      · exact hcV sp h
    have hbV' : ∀ sp ∈ t,
        sp.idx ∈ V ∧ sp.idx ∉ (process_candidate n c b).1.elems.map ScoredPointOffset.idx := by
      intro sp hsp
      refine ⟨(hbV sp (by simp [hsp])).1, ?_⟩
      intro hmem
      rcases List.mem_map.mp hmem with ⟨a, ha, hae⟩
      rcases process_candidate_elems_subset n c b a ha with h | h
      · subst h
        rw [hae] at hbidx
        exact hbidx (List.mem_map.mpr ⟨sp, hsp, rfl⟩)
      · refine (hbV sp (by simp [hsp])).2 ?_
        rw [List.mem_map]
        exact ⟨a, h, hae⟩
    exact ih (process_candidate n c b).1 (process_candidate n c b).2 hn' hnV' hcV' hbn' hbV'

/-! ### Scoring batch lemmas -/

theorem score_points_map_idx (s : FilteredScorer) (ids : List PointOffsetType)
    (limit : Nat) :
    (s.score_points ids limit).map ScoredPointOffset.idx = (ids.filter s.admits).take limit := by
  unfold FilteredScorer.score_points
  rw [List.map_map]
  exact List.map_id _

theorem score_points_idx_sublist (s : FilteredScorer) (ids : List PointOffsetType)
    (limit : Nat) :
    List.Sublist ((s.score_points ids limit).map ScoredPointOffset.idx) ids := by
  rw [score_points_map_idx]
  exact (List.take_sublist _ _).trans (List.filter_sublist ids)

namespace GraphLinearBuilder

/-! ### Visited-set gathering lemmas -/

theorem collectUnvisited_visited_mono :
    ∀ (links visited : List PointOffsetType),
      ∀ v ∈ visited, v ∈ (collectUnvisited links visited).2 := by
  intro links
  induction links with
  | nil => intro visited v hv; exact hv
  | cons l rest ih =>
    intro visited v hv
    unfold collectUnvisited
    split
    · exact ih visited v hv
    · exact ih (l :: visited) v (List.mem_cons_of_mem l hv)

theorem collectUnvisited_visited_src :
    ∀ (links visited : List PointOffsetType),
      ∀ v ∈ (collectUnvisited links visited).2, v ∈ visited ∨ v ∈ links := by
  intro links
  induction links with
  | nil => intro visited v hv; exact Or.inl hv
  | cons l rest ih =>
    intro visited v hv
    unfold collectUnvisited at hv
    split at hv
    · rcases ih visited v hv with h | h
      · exact Or.inl h
      · exact Or.inr (List.mem_cons_of_mem l h)
    · rcases ih (l :: visited) v hv with h | h
      · rcases List.mem_cons.mp h with h | h
        · exact Or.inr (by simp [h])
        · exact Or.inl h
      · exact Or.inr (List.mem_cons_of_mem l h)

theorem collectUnvisited_pids :
    ∀ (links visited : List PointOffsetType),
      (collectUnvisited links visited).1.Nodup
      ∧ (∀ x ∈ (collectUnvisited links visited).1,
          x ∈ links ∧ x ∉ visited ∧ x ∈ (collectUnvisited links visited).2) := by
  intro links
  induction links with
  | nil => intro visited; exact ⟨List.nodup_nil, by intro x hx; cases hx⟩
  | cons l rest ih =>
    intro visited
    unfold collectUnvisited
    split
    · refine ⟨(ih visited).1, ?_⟩
      intro x hx
      obtain ⟨h1, h2, h3⟩ := (ih visited).2 x hx
      exact ⟨List.mem_cons_of_mem l h1, h2, h3⟩
    · constructor
      · refine List.nodup_cons.mpr ⟨?_, (ih (l :: visited)).1⟩
        intro hl
        obtain ⟨_, h2, _⟩ := (ih (l :: visited)).2 l hl
        exact h2 (by simp)
      · intro x hx
        rcases List.mem_cons.mp hx with h | h
        · subst h
          refine ⟨by simp, by assumption, ?_⟩
          exact collectUnvisited_visited_mono rest (x :: visited) x (by simp)
        · obtain ⟨h1, h2, h3⟩ := (ih (l :: visited)).2 x h
          exact ⟨List.mem_cons_of_mem l h1, fun hv => h2 (List.mem_cons_of_mem l hv), h3⟩

theorem listMaxSpo_mem :
    ∀ (l : List ScoredPointOffset) (x : ScoredPointOffset),
      listMaxSpo l = some x → x ∈ l := by
  intro l
  induction l with
  | nil => intro x h; simp [listMaxSpo] at h
  | cons a t ih =>
    intro x h
    unfold listMaxSpo at h
    cases ht : listMaxSpo t with
    | none =>
      rw [ht] at h
      simp only [Option.some.injEq] at h
      subst h
      simp
    | some y =>
      rw [ht] at h
      simp only [Option.some.injEq] at h
      by_cases hc : spoLe a y
      · rw [if_pos hc] at h
        subst h
        exact List.mem_cons_of_mem a (ih y ht)
      · rw [if_neg hc] at h
        subst h
        simp

end GraphLinearBuilder


namespace GraphLinearBuilder

/-! ### Beam-search loop invariants -/

theorem searchLoop_sorted (b : GraphLinearBuilder) (scorer : FilteredScorer)
    (level limit : Nat) :
    ∀ (fuel : Nat) (n : FixedLengthPriorityQueue) (c : List ScoredPointOffset)
      (v : List PointOffsetType), SortedDesc n.elems →
      SortedDesc (searchLoop b scorer level limit fuel n c v).1.elems := by
  intro fuel
  induction fuel with
  | zero => intro n c v h; exact h
  | succ fuel ih =>
    intro n c v h
    unfold searchLoop
    cases c with
    | nil => exact h
    | cons candidate rest =>
      dsimp only
      split
      · exact h
      · exact ih _ _ _ (pcFold_sorted _ n rest h)

theorem searchLoop_inv (b : GraphLinearBuilder) (scorer : FilteredScorer)
    (level limit : Nat) (P : PointOffsetType → Prop)
    (hP : ∀ q x, x ∈ b.getLinksD q level → P x) :
    ∀ (fuel : Nat) (n : FixedLengthPriorityQueue) (c : List ScoredPointOffset)
      (v : List PointOffsetType),
      (n.elems.map ScoredPointOffset.idx).Nodup →
      (∀ sp ∈ n.elems, sp.idx ∈ v) →
      (∀ sp ∈ c, sp.idx ∈ v) →
      (∀ x ∈ v, P x) →
      (((searchLoop b scorer level limit fuel n c v).1.elems.map ScoredPointOffset.idx).Nodup
        ∧ (∀ sp ∈ (searchLoop b scorer level limit fuel n c v).1.elems,
            sp.idx ∈ (searchLoop b scorer level limit fuel n c v).2.2)
        ∧ (∀ sp ∈ (searchLoop b scorer level limit fuel n c v).2.1,
            sp.idx ∈ (searchLoop b scorer level limit fuel n c v).2.2)
        ∧ (∀ x ∈ (searchLoop b scorer level limit fuel n c v).2.2, P x)) := by
  intro fuel
  induction fuel with
  | zero => intro n c v hn hnv hcv hv; exact ⟨hn, hnv, hcv, hv⟩
  | succ fuel ih =>
    intro n c v hn hnv hcv hv
    unfold searchLoop
    cases c with
    | nil =>
      dsimp only
      refine ⟨hn, hnv, ?_, hv⟩
      intro sp hsp
      cases hsp
    | cons candidate rest =>
      dsimp only
      split
      · refine ⟨hn, hnv, ?_, hv⟩
        intro sp hsp
        exact hcv sp (List.mem_cons_of_mem candidate hsp)
      · have hmono := collectUnvisited_visited_mono (b.getLinksD candidate.idx level) v
        have hpids := collectUnvisited_pids (b.getLinksD candidate.idx level) v
        have hsrc : ∀ x ∈ (collectUnvisited (b.getLinksD candidate.idx level) v).2, P x := by
          intro x hx
          rcases collectUnvisited_visited_src _ _ x hx with h | h
          · exact hv x h
          · exact hP candidate.idx x h
        have hscored := score_points_idx_sublist scorer
          (collectUnvisited (b.getLinksD candidate.idx level) v).1 limit
        have hbn : ((scorer.score_points
            (collectUnvisited (b.getLinksD candidate.idx level) v).1 limit).map
            ScoredPointOffset.idx).Nodup :=
          hpids.1.sublist hscored
        have hbV : ∀ sp ∈ scorer.score_points
            (collectUnvisited (b.getLinksD candidate.idx level) v).1 limit,
            sp.idx ∈ (collectUnvisited (b.getLinksD candidate.idx level) v).2
              ∧ sp.idx ∉ n.elems.map ScoredPointOffset.idx := by
          intro sp hsp
          have hin : sp.idx ∈ (collectUnvisited (b.getLinksD candidate.idx level) v).1 :=
            hscored.subset (List.mem_map.mpr ⟨sp, hsp, rfl⟩)
          obtain ⟨_, h2, h3⟩ := hpids.2 sp.idx hin
          refine ⟨h3, ?_⟩
          intro hmem
          rcases List.mem_map.mp hmem with ⟨a, ha, hae⟩
          exact h2 (hae ▸ hnv a ha)
        have hfold := pcFold_inv (collectUnvisited (b.getLinksD candidate.idx level) v).2
          (scorer.score_points (collectUnvisited (b.getLinksD candidate.idx level) v).1 limit)
          n rest hn
          (fun sp hsp => hmono sp.idx (hnv sp hsp))
          (fun sp hsp => hmono sp.idx (hcv sp (List.mem_cons_of_mem candidate hsp)))
          hbn hbV
        exact ih _ _ _ hfold.1 hfold.2.1 hfold.2.2 hsrc

/-! ### Existing-links pass invariants -/

theorem existingLinksPass_sorted (scorer : FilteredScorer)
    (visited : List PointOffsetType) :
    ∀ (ex : List PointOffsetType) (n : FixedLengthPriorityQueue)
      (c : List ScoredPointOffset), SortedDesc n.elems →
      SortedDesc (existingLinksPass scorer visited ex n c).1.elems := by
  intro ex
  induction ex with
  | nil => intro n c h; exact h
  | cons l rest ih =>
    intro n c h
    unfold existingLinksPass
    split
    · exact ih n c h
    · exact ih _ _ (push_sorted h _)

theorem existingLinksPass_elems_subset (scorer : FilteredScorer)
    (visited : List PointOffsetType) :
    ∀ (ex : List PointOffsetType) (n : FixedLengthPriorityQueue)
      (c : List ScoredPointOffset),
      ∀ sp ∈ (existingLinksPass scorer visited ex n c).1.elems,
        sp ∈ n.elems ∨ sp.idx ∈ ex := by
  intro ex
  induction ex with
  | nil => intro n c sp hsp; exact Or.inl hsp
  | cons l rest ih =>
    intro n c sp hsp
    unfold existingLinksPass at hsp
    split at hsp
    · rcases ih n c sp hsp with h | h
      · exact Or.inl h
      · exact Or.inr (List.mem_cons_of_mem l h)
    · rcases ih _ _ sp hsp with h | h
      · rcases process_candidate_elems_subset n c _ sp h with h2 | h2
        · subst h2
          exact Or.inr (by simp)
        · exact Or.inl h2
      · exact Or.inr (List.mem_cons_of_mem l h)

theorem existingLinksPass_nodup (scorer : FilteredScorer)
    (visited : List PointOffsetType) :
    ∀ (ex : List PointOffsetType) (n : FixedLengthPriorityQueue)
      (c : List ScoredPointOffset) (extra : List PointOffsetType),
      (n.elems.map ScoredPointOffset.idx).Nodup →
      (∀ sp ∈ n.elems, sp.idx ∈ visited ∨ sp.idx ∈ extra) →
      ex.Nodup →
      (∀ l ∈ ex, l ∉ extra) →
      ((existingLinksPass scorer visited ex n c).1.elems.map ScoredPointOffset.idx).Nodup := by
  intro ex
  induction ex with
  | nil => intro n c extra hn _ _ _; exact hn
  | cons l rest ih =>
    intro n c extra hn hnv hex hdisj
    unfold existingLinksPass
    split
    · exact ih n c extra hn hnv hex.of_cons
        (fun x hx => hdisj x (List.mem_cons_of_mem l hx))
    · have hlv : l ∉ visited := by assumption
      have hln : l ∉ n.elems.map ScoredPointOffset.idx := by
        intro hmem
        rcases List.mem_map.mp hmem with ⟨a, ha, hae⟩
        rcases hnv a ha with h | h
        · exact hlv (hae ▸ h)
        · exact hdisj l (by simp) (hae ▸ h)
      have hrest : l ∉ rest := (List.nodup_cons.mp hex).1
      refine ih _ _ (l :: extra)
        (process_candidate_idx_nodup hn hln c) ?_ hex.of_cons ?_
      · intro sp hsp
        rcases process_candidate_elems_subset n c _ sp hsp with h | h
        · subst h
          exact Or.inr (by simp)
        · rcases hnv sp h with h2 | h2
          · exact Or.inl h2
          · exact Or.inr (List.mem_cons_of_mem l h2)
      · intro x hx hmem
        rcases List.mem_cons.mp hmem with h | h
        · subst h
          exact hrest hx
        · exact hdisj x (List.mem_cons_of_mem l hx) h

/-! ### Beam-search summary lemmas -/

theorem search_on_level_sorted (b : GraphLinearBuilder) (e : ScoredPointOffset)
    (level ef : Nat) (scorer : FilteredScorer) (ex : List PointOffsetType) :
    SortedDesc (b.search_on_level e level ef scorer ex).elems := by
  unfold search_on_level
  dsimp only
  apply existingLinksPass_sorted
  apply searchLoop_sorted
  exact push_sorted
    (show SortedDesc (FixedLengthPriorityQueue.mk ef []).elems from List.sorted_nil) e

theorem search_on_level_mem (b : GraphLinearBuilder) (e : ScoredPointOffset)
    (level ef : Nat) (scorer : FilteredScorer) (ex : List PointOffsetType)
    (P : PointOffsetType → Prop)
    (hP : ∀ q x, x ∈ b.getLinksD q level → P x)
    (hentry : P e.idx) (hex : ∀ x ∈ ex, P x) :
    ∀ sp ∈ (b.search_on_level e level ef scorer ex).elems, P sp.idx := by
  unfold search_on_level
  dsimp only
  intro sp hsp
  have hinit_nodup : (((FixedLengthPriorityQueue.mk ef []).push e).1.elems.map
      ScoredPointOffset.idx).Nodup := by
    apply push_idx_nodup <;> simp
  have hinit_mem : ∀ a ∈ ((FixedLengthPriorityQueue.mk ef []).push e).1.elems,
      a.idx ∈ [e.idx] := by
    intro a ha
    rcases push_elems_subset _ e a ha with h | h
    · simp [h]
    · cases h
  have hloop := searchLoop_inv b scorer level (b.get_m level) P hP
    (2 + b.totalLinkCount) ((FixedLengthPriorityQueue.mk ef []).push e).1 [e] [e.idx]
    hinit_nodup hinit_mem (by intro x hx; simp at hx; simp [hx]) (by
      intro x hx
      simp at hx
      subst hx
      exact hentry)
  rcases existingLinksPass_elems_subset scorer _ ex _ _ sp hsp with h | h
  · exact hloop.2.2.2 sp.idx (hloop.2.1 sp h)
  · exact hex sp.idx h

theorem search_on_level_idx_nodup (b : GraphLinearBuilder) (e : ScoredPointOffset)
    (level ef : Nat) (scorer : FilteredScorer) (ex : List PointOffsetType)
    (hexnd : ex.Nodup) :
    ((b.search_on_level e level ef scorer ex).elems.map ScoredPointOffset.idx).Nodup := by
  unfold search_on_level
  dsimp only
  have hinit_nodup : (((FixedLengthPriorityQueue.mk ef []).push e).1.elems.map
      ScoredPointOffset.idx).Nodup := by
    apply push_idx_nodup <;> simp
  have hinit_mem : ∀ a ∈ ((FixedLengthPriorityQueue.mk ef []).push e).1.elems,
      a.idx ∈ [e.idx] := by
    intro a ha
    rcases push_elems_subset _ e a ha with h | h
    · simp [h]
    · cases h
  have hloop := searchLoop_inv b scorer level (b.get_m level) (fun _ => True)
    (fun _ _ _ => trivial)
    (2 + b.totalLinkCount) ((FixedLengthPriorityQueue.mk ef []).push e).1 [e] [e.idx]
    hinit_nodup hinit_mem (by intro x hx; simp at hx; simp [hx]) (fun _ _ => trivial)
  apply existingLinksPass_nodup scorer _ ex _ _ [] hloop.1
    (fun sp hsp => Or.inl (hloop.2.1 sp hsp)) hexnd (by simp)

end GraphLinearBuilder


/-! ### Generic list update lemmas -/

theorem getD_set_ne {β : Type} (l : List β) {i j : Nat} (v d : β) (h : i ≠ j) :
    (l.set i v).getD j d = l.getD j d := by
  simp [List.getD_eq_getElem?_getD, List.getElem?_set_ne h]

theorem getD_set_self_cases {β : Type} (l : List β) (i : Nat) (v d : β) :
    ((l.set i v).getD i d = v ∧ i < l.length) ∨ l.set i v = l := by
  by_cases h : i < l.length
  · left
    constructor
    · simp [List.getD_eq_getElem?_getD, List.getElem?_set_self, h]
    · exact h
  · right
    exact List.set_eq_of_length_le (le_of_not_lt h)

namespace GraphLinearBuilder

/-! ### Link-store update lemmas -/

theorem setLinks_m (b : GraphLinearBuilder) (q L : Nat) (l : List PointOffsetType) :
    (b.setLinks q L l).m = b.m := rfl

theorem setLinks_m0 (b : GraphLinearBuilder) (q L : Nat) (l : List PointOffsetType) :
    (b.setLinks q L l).m0 = b.m0 := rfl

theorem setLinks_ef (b : GraphLinearBuilder) (q L : Nat) (l : List PointOffsetType) :
    (b.setLinks q L l).ef_construct = b.ef_construct := rfl

theorem setLinks_entry_points (b : GraphLinearBuilder) (q L : Nat)
    (l : List PointOffsetType) :
    (b.setLinks q L l).entry_points = b.entry_points := rfl

theorem getLinksD_setLinks_cases (b : GraphLinearBuilder) (q L : Nat)
    (l : List PointOffsetType) (q' L' : Nat) :
    (b.setLinks q L l).getLinksD q' L' = b.getLinksD q' L'
    ∨ (q' = q ∧ L' = L ∧ (b.setLinks q L l).getLinksD q' L' = l) := by
  by_cases hq : q' = q
  · subst hq
    by_cases hL : L' = L
    · subst hL
      unfold setLinks getLinksD
      dsimp only
      rcases getD_set_self_cases b.links_layers q'
          ((b.links_layers.getD q' []).set L' l) ([] : List (List PointOffsetType)) with
        ⟨h, _⟩ | h
      · rw [h]
        rcases getD_set_self_cases (b.links_layers.getD q' []) L' l
            ([] : List PointOffsetType) with ⟨h2, _⟩ | h2
        · exact Or.inr ⟨rfl, rfl, h2⟩
        · rw [h2]
          exact Or.inl rfl
      · rw [h]
        exact Or.inl rfl
    · left
      unfold setLinks getLinksD
      dsimp only
      rcases getD_set_self_cases b.links_layers q'
          ((b.links_layers.getD q' []).set L l) ([] : List (List PointOffsetType)) with
        ⟨h, _⟩ | h
      · rw [h, getD_set_ne _ _ _ (Ne.symm hL)]
      · rw [h]
  · left
    unfold setLinks getLinksD
    dsimp only
    rw [getD_set_ne _ _ _ (Ne.symm hq)]

theorem getLinksD_setLinks_ne (b : GraphLinearBuilder) {q L q' L' : Nat}
    (l : List PointOffsetType) (h : q' ≠ q ∨ L' ≠ L) :
    (b.setLinks q L l).getLinksD q' L' = b.getLinksD q' L' := by
  rcases getLinksD_setLinks_cases b q L l q' L' with h0 | ⟨hq, hL, _⟩
  · exact h0
  · rcases h with h | h
    · exact absurd hq h
    · exact absurd hL h

theorem setLinks_layers_length (b : GraphLinearBuilder) (q L : Nat)
    (l : List PointOffsetType) :
    (b.setLinks q L l).links_layers.length = b.links_layers.length := by
  unfold setLinks
  dsimp only
  exact List.length_set b.links_layers q ((b.links_layers.getD q []).set L l)

theorem setLinks_point_layers_length (b : GraphLinearBuilder) (q L : Nat)
    (l : List PointOffsetType) (q' : Nat) :
    ((b.setLinks q L l).links_layers.getD q' []).length
      = (b.links_layers.getD q' []).length := by
  by_cases hq : q' = q
  · subst hq
    unfold setLinks
    dsimp only
    rcases getD_set_self_cases b.links_layers q'
        ((b.links_layers.getD q' []).set L l) ([] : List (List PointOffsetType)) with
      ⟨h, _⟩ | h
    · rw [h]
      exact List.length_set _ _ _
    · rw [h]
  · unfold setLinks
    dsimp only
    rw [getD_set_ne _ _ _ (Ne.symm hq)]

/-! ### Response application lemmas -/

theorem foldl_setLinks_cases (lvl : Nat) :
    ∀ (ps : List (PointOffsetType × List PointOffsetType)) (bb : GraphLinearBuilder)
      (q L : Nat),
      (ps.foldl (fun bb p => bb.setLinks p.1 lvl p.2) bb).getLinksD q L = bb.getLinksD q L
      ∨ (L = lvl ∧ ∃ pr ∈ ps, pr.1 = q ∧
          (ps.foldl (fun bb p => bb.setLinks p.1 lvl p.2) bb).getLinksD q L = pr.2) := by
  intro ps
  induction ps with
  | nil => intro bb q L; exact Or.inl rfl
  | cons p t ih =>
    intro bb q L
    rcases ih (bb.setLinks p.1 lvl p.2) q L with h | ⟨hL, pr, hpr, hq, hv⟩
    · rcases getLinksD_setLinks_cases bb p.1 lvl p.2 q L with h2 | ⟨hq, hL, hv⟩
      · exact Or.inl (h.trans h2)
      · exact Or.inr ⟨hL, p, by simp, hq.symm, h.trans hv⟩
    · exact Or.inr ⟨hL, pr, List.mem_cons_of_mem p hpr, hq, hv⟩

theorem foldl_setLinks_shape (lvl : Nat) :
    ∀ (ps : List (PointOffsetType × List PointOffsetType)) (bb : GraphLinearBuilder),
      let res := ps.foldl (fun bb p => bb.setLinks p.1 lvl p.2) bb
      (res.m = bb.m ∧ res.m0 = bb.m0 ∧ res.ef_construct = bb.ef_construct
        ∧ res.entry_points = bb.entry_points
        ∧ res.links_layers.length = bb.links_layers.length
        ∧ ∀ q, (res.links_layers.getD q []).length = (bb.links_layers.getD q []).length) := by
  intro ps
  induction ps with
  | nil => intro bb; exact ⟨rfl, rfl, rfl, rfl, rfl, fun _ => rfl⟩
  | cons p t ih =>
    intro bb
    obtain ⟨h1, h2, h3, h4, h5, h6⟩ := ih (bb.setLinks p.1 lvl p.2)
    simp only [List.foldl_cons]
    refine ⟨h1, h2, h3, h4, ?_, ?_⟩
    · rw [h5, setLinks_layers_length]
    · intro q
      rw [h6 q, setLinks_point_layers_length]

theorem apply_link_response_cases (b : GraphLinearBuilder) (r : GraphLinkResponse)
    (q L : Nat) :
    (b.apply_link_response r).getLinksD q L = b.getLinksD q L
    ∨ (L = r.level ∧
        ((q = r.point_id ∧ (b.apply_link_response r).getLinksD q L = r.links)
          ∨ ∃ pr ∈ r.neighbor_ids.zip r.neighbor_links, pr.1 = q ∧
              (b.apply_link_response r).getLinksD q L = pr.2)) := by
  unfold apply_link_response
  rcases foldl_setLinks_cases r.level (r.neighbor_ids.zip r.neighbor_links)
      (b.setLinks r.point_id r.level r.links) q L with h | ⟨hL, pr, hpr, hq, hv⟩
  · rcases getLinksD_setLinks_cases b r.point_id r.level r.links q L with h2 | ⟨hq, hL, hv⟩
    · exact Or.inl (h.trans h2)
    · exact Or.inr ⟨hL, Or.inl ⟨hq, h.trans hv⟩⟩
  · exact Or.inr ⟨hL, Or.inr ⟨pr, hpr, hq, hv⟩⟩

theorem apply_link_response_frame (b : GraphLinearBuilder) (r : GraphLinkResponse)
    (q L : Nat)
    (h : (b.apply_link_response r).getLinksD q L ≠ b.getLinksD q L) :
    L = r.level ∧ (q = r.point_id ∨ q ∈ r.neighbor_ids) := by
  rcases apply_link_response_cases b r q L with h0 | ⟨hL, hc⟩
  · exact absurd h0 h
  · refine ⟨hL, ?_⟩
    rcases hc with ⟨hq, _⟩ | ⟨pr, hpr, hq, _⟩
    · exact Or.inl hq
    · right
      rw [← hq]
      exact (List.of_mem_zip hpr).1

theorem apply_link_response_shape (b : GraphLinearBuilder) (r : GraphLinkResponse) :
    ((b.apply_link_response r).m = b.m ∧ (b.apply_link_response r).m0 = b.m0
      ∧ (b.apply_link_response r).ef_construct = b.ef_construct
      ∧ (b.apply_link_response r).entry_points = b.entry_points
      ∧ (b.apply_link_response r).links_layers.length = b.links_layers.length
      ∧ ∀ q, ((b.apply_link_response r).links_layers.getD q []).length
          = (b.links_layers.getD q []).length) := by
  unfold apply_link_response
  obtain ⟨h1, h2, h3, h4, h5, h6⟩ := foldl_setLinks_shape r.level
    (r.neighbor_ids.zip r.neighbor_links) (b.setLinks r.point_id r.level r.links)
  refine ⟨h1, h2, h3, h4, ?_, ?_⟩
  · rw [h5, setLinks_layers_length]
  · intro q
    rw [h6 q, setLinks_point_layers_length]

theorem apply_link_response_get_m (b : GraphLinearBuilder) (r : GraphLinkResponse)
    (L : Nat) : (b.apply_link_response r).get_m L = b.get_m L := by
  unfold get_m
  rw [(apply_link_response_shape b r).1, (apply_link_response_shape b r).2.1]

/-! ### Per-level response lemmas -/

theorem foldl_pair_spec (f : PointOffsetType → List PointOffsetType) :
    ∀ (l : List PointOffsetType) (acc : List PointOffsetType × List (List PointOffsetType)),
      l.foldl (fun acc x => (acc.1 ++ [x], acc.2 ++ [f x])) acc
        = (acc.1 ++ l, acc.2 ++ l.map f) := by
  intro l
  induction l with
  | nil => intro acc; simp
  | cons x t ih =>
    intro acc
    rw [List.foldl_cons, ih]
    simp

theorem link_on_level_eq (b : GraphLinearBuilder) (p : PointOffsetType)
    (scorer : FilteredScorer) (lvl : Nat) (e : ScoredPointOffset) :
    b.link_on_level p scorer lvl e =
      { point_id := p, level := lvl,
        entry := listMaxSpo
          (b.search_on_level e lvl b.ef_construct scorer (b.getLinksD p lvl)).elems,
        links := select_candidates_with_heuristic
          (b.search_on_level e lvl b.ef_construct scorer (b.getLinksD p lvl))
          (b.get_m lvl) scorer,
        neighbor_ids := select_candidates_with_heuristic
          (b.search_on_level e lvl b.ef_construct scorer (b.getLinksD p lvl))
          (b.get_m lvl) scorer,
        neighbor_links := (select_candidates_with_heuristic
          (b.search_on_level e lvl b.ef_construct scorer (b.getLinksD p lvl))
          (b.get_m lvl) scorer).map (b.neighbor_update p scorer lvl) } := by
  unfold link_on_level
  dsimp only
  rw [foldl_pair_spec]
  simp

theorem link_on_level_neighbor_ids (b : GraphLinearBuilder) (p : PointOffsetType)
    (scorer : FilteredScorer) (lvl : Nat) (e : ScoredPointOffset) :
    (b.link_on_level p scorer lvl e).neighbor_ids = (b.link_on_level p scorer lvl e).links := by
  rw [link_on_level_eq]

theorem link_on_level_neighbor_links (b : GraphLinearBuilder) (p : PointOffsetType)
    (scorer : FilteredScorer) (lvl : Nat) (e : ScoredPointOffset) :
    (b.link_on_level p scorer lvl e).neighbor_links
      = (b.link_on_level p scorer lvl e).links.map (b.neighbor_update p scorer lvl) := by
  rw [link_on_level_eq]

theorem link_on_level_level (b : GraphLinearBuilder) (p : PointOffsetType)
    (scorer : FilteredScorer) (lvl : Nat) (e : ScoredPointOffset) :
    (b.link_on_level p scorer lvl e).level = lvl := by
  rw [link_on_level_eq]

theorem link_on_level_point_id (b : GraphLinearBuilder) (p : PointOffsetType)
    (scorer : FilteredScorer) (lvl : Nat) (e : ScoredPointOffset) :
    (b.link_on_level p scorer lvl e).point_id = p := by
  rw [link_on_level_eq]

theorem link_on_level_links_eq (b : GraphLinearBuilder) (p : PointOffsetType)
    (scorer : FilteredScorer) (lvl : Nat) (e : ScoredPointOffset) :
    (b.link_on_level p scorer lvl e).links = select_candidates_with_heuristic
      (b.search_on_level e lvl b.ef_construct scorer (b.getLinksD p lvl))
      (b.get_m lvl) scorer := by
  rw [link_on_level_eq]

theorem link_on_level_entry_mem (b : GraphLinearBuilder) (p : PointOffsetType)
    (scorer : FilteredScorer) (lvl : Nat) (e : ScoredPointOffset)
    (x : ScoredPointOffset)
    (h : (b.link_on_level p scorer lvl e).entry = some x) :
    x ∈ (b.search_on_level e lvl b.ef_construct scorer (b.getLinksD p lvl)).elems := by
  rw [link_on_level_eq] at h
  exact listMaxSpo_mem _ x h

end GraphLinearBuilder

/-! ### Heuristic selection consequences -/

theorem select_from_sorted_length (scorer : FilteredScorer)
    (cands : List ScoredPointOffset) (m : Nat) :
    (select_candidate_with_heuristic_from_sorted scorer cands m).length ≤ m :=
  selectLoop_length_le scorer m cands [] (Nat.zero_le m)

theorem select_from_sorted_subset (scorer : FilteredScorer)
    (cands : List ScoredPointOffset) (m : Nat) :
    ∀ x ∈ select_candidate_with_heuristic_from_sorted scorer cands m,
      x ∈ cands.map ScoredPointOffset.idx := by
  intro x hx
  rcases selectLoop_subset scorer m cands [] x hx with h | h
  · cases h
  · exact h

theorem select_from_sorted_nodup (scorer : FilteredScorer)
    (cands : List ScoredPointOffset) (m : Nat)
    (h : (cands.map ScoredPointOffset.idx).Nodup) :
    (select_candidate_with_heuristic_from_sorted scorer cands m).Nodup :=
  selectLoop_nodup scorer m cands [] h List.nodup_nil (by intro x hx; cases hx)

theorem select_cands_length (q : FixedLengthPriorityQueue) (m : Nat)
    (scorer : FilteredScorer) :
    (select_candidates_with_heuristic q m scorer).length ≤ m :=
  select_from_sorted_length scorer q.elems m

namespace GraphLinearBuilder

/-! ### Neighbor re-selection lemmas -/

theorem neighbor_update_length (b : GraphLinearBuilder) (p : PointOffsetType)
    (scorer : FilteredScorer) (lvl : Nat) (other : PointOffsetType) :
    (b.neighbor_update p scorer lvl other).length ≤ b.get_m lvl := by
  unfold neighbor_update
  dsimp only
  split
  · rw [List.length_append]
    simp only [List.length_singleton]
    omega
  · exact select_from_sorted_length scorer _ _

theorem heapSortedDesc_idx_cons (p : PointOffsetType) (sc : ScoreType)
    (pairs : List ScoredPointOffset) :
    ∀ x ∈ (heapSortedDesc (⟨p, sc⟩ :: pairs)).map ScoredPointOffset.idx,
      x = p ∨ x ∈ pairs.map ScoredPointOffset.idx := by
  intro x hx
  have hperm := (heapSortedDesc_perm (⟨p, sc⟩ :: pairs)).map ScoredPointOffset.idx
  have := hperm.subset hx
  simpa using this

theorem neighbor_update_subset (b : GraphLinearBuilder) (p : PointOffsetType)
    (scorer : FilteredScorer) (lvl : Nat) (other : PointOffsetType) :
    ∀ x ∈ b.neighbor_update p scorer lvl other, x = p ∨ x ∈ b.getLinksD other lvl := by
  unfold neighbor_update
  dsimp only
  split
  · intro x hx
    rcases List.mem_append.mp hx with h | h
    · exact Or.inr h
    · simp only [List.mem_singleton] at h
      exact Or.inl h
  · intro x hx
    have h1 := select_from_sorted_subset scorer _ _ x hx
    rcases heapSortedDesc_idx_cons p _ _ x h1 with h | h
    · exact Or.inl h
    · right
      rw [List.map_map] at h
      have : x ∈ (b.getLinksD other lvl).take (b.get_m lvl) := by
        have hid : ((b.getLinksD other lvl).take (b.get_m lvl)).map (fun l => l) =
            (b.getLinksD other lvl).take (b.get_m lvl) := List.map_id _
        rw [← hid]
        exact h
      exact List.take_subset _ _ this

theorem neighbor_update_nodup (b : GraphLinearBuilder) (p : PointOffsetType)
    (scorer : FilteredScorer) (lvl : Nat) (other : PointOffsetType)
    (hold : (b.getLinksD other lvl).Nodup) (hp : p ∉ b.getLinksD other lvl) :
    (b.neighbor_update p scorer lvl other).Nodup := by
  unfold neighbor_update
  dsimp only
  split
  · refine List.Nodup.append hold (by simp) ?_
    intro x hx hxp
    simp only [List.mem_singleton] at hxp
    subst hxp
    exact hp hx
  · apply select_from_sorted_nodup
    rw [(heapSortedDesc_perm _ |>.map ScoredPointOffset.idx).nodup_iff]
    simp only [List.map_cons, List.map_map]
    refine List.nodup_cons.mpr ⟨?_, ?_⟩
    · intro hmem
      apply hp
      apply List.take_subset (b.get_m lvl)
      have hid : ((b.getLinksD other lvl).take (b.get_m lvl)).map (fun l => l) =
          (b.getLinksD other lvl).take (b.get_m lvl) := List.map_id _
      rw [← hid]
      exact hmem
    · have hid : ((b.getLinksD other lvl).take (b.get_m lvl)).map (fun l => l) =
          (b.getLinksD other lvl).take (b.get_m lvl) := List.map_id _
      have : (((b.getLinksD other lvl).take (b.get_m lvl)).map (fun l => l)).Nodup := by
        rw [hid]
        exact hold.sublist (List.take_sublist _ _)
      exact this

end GraphLinearBuilder


/-! ### Entry registry lemmas -/

theorem new_point_some_mem (ep : EntryPoints) (p lvl : Nat)
    (pred : PointOffsetType → Bool) (d : EntryPoint)
    (h : (ep.new_point p lvl pred).1 = some d) : d ∈ ep.points := by
  unfold EntryPoints.new_point at h
  cases hf : ep.points.find? (fun d => pred d.point_id) with
  | none =>
    rw [hf] at h
    simp at h
  | some d0 =>
    rw [hf] at h
    dsimp only at h
    have hd0 : d0 ∈ ep.points := List.mem_of_find?_eq_some hf
    split at h <;> (simp only [Option.some.injEq] at h; subst h; exact hd0)

theorem new_point_none_of (ep : EntryPoints) (p lvl : Nat)
    (pred : PointOffsetType → Bool)
    (h : ∀ d ∈ ep.points, pred d.point_id = false) :
    (ep.new_point p lvl pred).1 = none := by
  unfold EntryPoints.new_point
  rw [List.find?_eq_none.mpr]
  intro d hd
  rw [h d hd]
  simp

namespace GraphLinearBuilder

/-! ### Greedy-descent membership lemmas -/

theorem searchEntryFold_mem (P : PointOffsetType → Prop) :
    ∀ (scored : List ScoredPointOffset) (st : ScoredPointOffset × Bool),
      P st.1.idx → (∀ sp ∈ scored, P sp.idx) →
      P ((scored.foldl
          (fun st sp => if st.1.score < sp.score then (sp, true) else st) st).1.idx) := by
  intro scored
  induction scored with
  | nil => intro st h _; exact h
  | cons sp t ih =>
    intro st h hs
    simp only [List.foldl_cons]
    by_cases hlt : st.1.score < sp.score
    · rw [if_pos hlt]
      exact ih (sp, true) (hs sp (by simp)) (fun x hx => hs x (by simp [hx]))
    · rw [if_neg hlt]
      exact ih st h (fun x hx => hs x (by simp [hx]))

theorem searchEntryOnLevel_mem (b : GraphLinearBuilder) (scorer : FilteredScorer)
    (limit lvl : Nat) (P : PointOffsetType → Prop)
    (hP : ∀ q x, x ∈ b.getLinksD q lvl → P x) :
    ∀ (fuel : Nat) (cur : ScoredPointOffset), P cur.idx →
      P ((searchEntryOnLevel b scorer limit lvl fuel cur).idx) := by
  intro fuel
  induction fuel with
  | zero => intro cur h; exact h
  | succ fuel ih =>
    intro cur h
    unfold searchEntryOnLevel
    dsimp only
    have hs : ∀ sp ∈ scorer.score_points (b.getLinksD cur.idx lvl) limit, P sp.idx := by
      intro sp hsp
      apply hP cur.idx
      exact (score_points_idx_sublist scorer _ limit).subset (List.mem_map.mpr ⟨sp, hsp, rfl⟩)
    split
    · exact ih _ (searchEntryFold_mem P _ (cur, false) h hs)
    · exact searchEntryFold_mem P _ (cur, false) h hs

theorem search_entry_mem (b : GraphLinearBuilder) (ep : PointOffsetType)
    (top target : Nat) (scorer : FilteredScorer) (P : PointOffsetType → Prop)
    (hP : ∀ q L x, x ∈ b.getLinksD q L → P x) (hst : P ep) :
    P ((b.search_entry ep top target scorer).idx) := by
  unfold search_entry
  suffices hgen : ∀ (levels : List Nat) (cur : ScoredPointOffset), P cur.idx →
      P ((levels.foldl
        (fun current level =>
          searchEntryOnLevel b scorer (b.get_m level) level (2 + b.totalLinkCount) current)
        cur).idx) by
    exact hgen _ _ hst
  intro levels
  induction levels with
  | nil => intro cur h; exact h
  | cons lvl t ih =>
    intro cur h
    simp only [List.foldl_cons]
    exact ih _ (searchEntryOnLevel_mem b scorer (b.get_m lvl) lvl P
      (fun q x hx => hP q lvl x hx) _ cur h)

theorem level_entry_of_mem (b : GraphLinearBuilder) (p : PointOffsetType)
    (scorer : FilteredScorer) (ep : EntryPoint) (P : PointOffsetType → Prop)
    (hP : ∀ q L x, x ∈ b.getLinksD q L → P x) (hep : P ep.point_id) :
    P (b.level_entry_of p scorer ep).idx := by
  unfold level_entry_of
  dsimp only
  split
  · exact search_entry_mem b ep.point_id ep.level (b.get_point_level p) scorer P hP hep
  · exact hep

/-! ### Per-response bounds and properties -/

theorem response_links_length (b : GraphLinearBuilder) (p : PointOffsetType)
    (scorer : FilteredScorer) (lvl : Nat) (e : ScoredPointOffset) :
    (b.link_on_level p scorer lvl e).links.length ≤ b.get_m lvl := by
  rw [link_on_level_links_eq]
  exact select_cands_length _ _ _

theorem response_neighbor_links_length (b : GraphLinearBuilder) (p : PointOffsetType)
    (scorer : FilteredScorer) (lvl : Nat) (e : ScoredPointOffset) :
    ∀ nl ∈ (b.link_on_level p scorer lvl e).neighbor_links, nl.length ≤ b.get_m lvl := by
  rw [link_on_level_neighbor_links]
  intro nl hnl
  rcases List.mem_map.mp hnl with ⟨x, _, hx⟩
  rw [← hx]
  exact neighbor_update_length b p scorer lvl x

theorem response_links_mem (b : GraphLinearBuilder) (p : PointOffsetType)
    (scorer : FilteredScorer) (lvl : Nat) (e : ScoredPointOffset)
    (P : PointOffsetType → Prop)
    (hP : ∀ q x, x ∈ b.getLinksD q lvl → P x) (he : P e.idx) :
    ∀ x ∈ (b.link_on_level p scorer lvl e).links, P x := by
  rw [link_on_level_links_eq]
  intro x hx
  have h1 := select_from_sorted_subset scorer _ _ x hx
  rcases List.mem_map.mp h1 with ⟨sp, hsp, he2⟩
  have := search_on_level_mem b e lvl b.ef_construct scorer (b.getLinksD p lvl) P hP he
    (hP p) sp hsp
  rw [← he2]
  exact this

theorem response_links_nodup (b : GraphLinearBuilder) (p : PointOffsetType)
    (scorer : FilteredScorer) (lvl : Nat) (e : ScoredPointOffset)
    (hex : (b.getLinksD p lvl).Nodup) :
    (b.link_on_level p scorer lvl e).links.Nodup := by
  rw [link_on_level_links_eq]
  exact select_from_sorted_nodup scorer _ _
    (search_on_level_idx_nodup b e lvl b.ef_construct scorer _ hex)

theorem response_next_entry_mem (b : GraphLinearBuilder) (p : PointOffsetType)
    (scorer : FilteredScorer) (lvl : Nat) (e : ScoredPointOffset)
    (P : PointOffsetType → Prop)
    (hP : ∀ q x, x ∈ b.getLinksD q lvl → P x) (he : P e.idx) :
    P ((b.link_on_level p scorer lvl e).entry.getD e).idx := by
  cases hr : (b.link_on_level p scorer lvl e).entry with
  | none => simpa using he
  | some x =>
    have hmem := link_on_level_entry_mem b p scorer lvl e x hr
    have := search_on_level_mem b e lvl b.ef_construct scorer (b.getLinksD p lvl) P hP he
      (hP p) x hmem
    simpa using this

/-! ### Cap preservation (claim C3 machinery) -/

theorem apply_cap (b : GraphLinearBuilder) (r : GraphLinkResponse)
    (hlinks : r.links.length ≤ b.get_m r.level)
    (hneigh : ∀ nl ∈ r.neighbor_links, nl.length ≤ b.get_m r.level)
    (hcap : ∀ q L, (b.getLinksD q L).length ≤ b.get_m L) :
    ∀ q L, ((b.apply_link_response r).getLinksD q L).length ≤ b.get_m L := by
  intro q L
  rcases apply_link_response_cases b r q L with h | ⟨hL, hc⟩
  · rw [h]
    exact hcap q L
  · subst hL
    rcases hc with ⟨_, hv⟩ | ⟨pr, hpr, _, hv⟩
    · rw [hv]
      exact hlinks
    · rw [hv]
      exact hneigh pr.2 (List.of_mem_zip hpr).2

theorem link_responses_cap (scorer : FilteredScorer) (p : PointOffsetType) :
    ∀ (curr : Nat) (b : GraphLinearBuilder) (e : ScoredPointOffset),
      (∀ q L, (b.getLinksD q L).length ≤ b.get_m L) →
      ∀ q L, (((link_responses scorer p b curr e).foldl apply_link_response b).getLinksD
          q L).length ≤ b.get_m L := by
  intro curr
  induction curr with
  | zero =>
    intro b e hcap q L
    have h0 : ((link_responses scorer p b 0 e).foldl apply_link_response b)
        = b.apply_link_response (b.link_on_level p scorer 0 e) := rfl
    rw [h0]
    refine apply_cap b _ ?_ ?_ hcap q L
    · rw [link_on_level_level]
      exact response_links_length b p scorer 0 e
    · rw [link_on_level_level]
      exact response_neighbor_links_length b p scorer 0 e
  | succ curr ih =>
    intro b e hcap q L
    have h0 : ((link_responses scorer p b (curr + 1) e).foldl apply_link_response b)
        = (link_responses scorer p
            (b.apply_link_response (b.link_on_level p scorer (curr + 1) e)) curr
            ((b.link_on_level p scorer (curr + 1) e).entry.getD e)).foldl
          apply_link_response
          (b.apply_link_response (b.link_on_level p scorer (curr + 1) e)) := rfl
    rw [h0]
    have hstep : ∀ q L, ((b.apply_link_response
        (b.link_on_level p scorer (curr + 1) e)).getLinksD q L).length ≤ b.get_m L := by
      refine apply_cap b _ ?_ ?_ hcap
      · rw [link_on_level_level]
        exact response_links_length b p scorer (curr + 1) e
      · rw [link_on_level_level]
        exact response_neighbor_links_length b p scorer (curr + 1) e
    have hcap2 : ∀ q L, ((b.apply_link_response
        (b.link_on_level p scorer (curr + 1) e)).getLinksD q L).length
        ≤ (b.apply_link_response (b.link_on_level p scorer (curr + 1) e)).get_m L := by
      intro q L
      rw [apply_link_response_get_m]
      exact hstep q L
    have hres := ih (b.apply_link_response (b.link_on_level p scorer (curr + 1) e))
      ((b.link_on_level p scorer (curr + 1) e).entry.getD e) hcap2 q L
    rw [apply_link_response_get_m] at hres
    exact hres

/-! ### Unfolding lemmas for `link_new_point` -/

theorem link_new_point_none (b : GraphLinearBuilder) (p : PointOffsetType)
    (scorer : FilteredScorer)
    (h : (b.entry_points.new_point p (b.get_point_level p) scorer.admits).1 = none) :
    b.link_new_point p scorer =
      { b with entry_points :=
          (b.entry_points.new_point p (b.get_point_level p) scorer.admits).2 } := by
  unfold link_new_point
  dsimp only
  rw [h]

theorem link_new_point_some (b : GraphLinearBuilder) (p : PointOffsetType)
    (scorer : FilteredScorer) (ep : EntryPoint)
    (h : (b.entry_points.new_point p (b.get_point_level p) scorer.admits).1 = some ep) :
    b.link_new_point p scorer =
      (b.responses_of p scorer ep).foldl apply_link_response
        { b with entry_points :=
            (b.entry_points.new_point p (b.get_point_level p) scorer.admits).2 } := by
  unfold link_new_point
  dsimp only
  rw [h]

end GraphLinearBuilder


theorem zip_self_map {α β : Type} (l : List α) (g : α → β) :
    l.zip (l.map g) = l.map (fun a => (a, g a)) := by
  have h := List.zip_map' (fun a => a) g l
  simpa using h

namespace GraphLinearBuilder

/-! ### Decomposition of a response's neighbor pairs -/

theorem response_zip_mem (b : GraphLinearBuilder) (p : PointOffsetType)
    (scorer : FilteredScorer) (lvl : Nat) (e : ScoredPointOffset)
    (pr : PointOffsetType × List PointOffsetType)
    (hpr : pr ∈ (b.link_on_level p scorer lvl e).neighbor_ids.zip
        (b.link_on_level p scorer lvl e).neighbor_links) :
    pr.1 ∈ (b.link_on_level p scorer lvl e).links
      ∧ pr.2 = b.neighbor_update p scorer lvl pr.1 := by
  rw [link_on_level_neighbor_ids, link_on_level_neighbor_links, zip_self_map] at hpr
  rcases List.mem_map.mp hpr with ⟨a, ha, hae⟩
  constructor
  · rw [← hae]
    exact ha
  · rw [← hae]

/-! ### Per-level step lemmas for the linking loop -/

theorem apply_step_frame (b : GraphLinearBuilder) (p : PointOffsetType)
    (scorer : FilteredScorer) (lvl : Nat) (e : ScoredPointOffset) :
    ∀ q L, L < lvl →
      (b.apply_link_response (b.link_on_level p scorer lvl e)).getLinksD q L
        = b.getLinksD q L := by
  intro q L hL
  rcases apply_link_response_cases b (b.link_on_level p scorer lvl e) q L with h | ⟨hLe, _⟩
  · exact h
  · rw [link_on_level_level] at hLe
    omega

theorem apply_step_self (b b0 : GraphLinearBuilder) (p : PointOffsetType)
    (scorer : FilteredScorer) (lvl : Nat) (e : ScoredPointOffset)
    (hframe : ∀ q L, L ≤ lvl → b.getLinksD q L = b0.getLinksD q L)
    (hfresh : ∀ q L, p ∉ b0.getLinksD q L)
    (hself : ∀ q L, q ∉ b.getLinksD q L)
    (he : e.idx ≠ p) :
    (∀ q L, q ∉ (b.apply_link_response (b.link_on_level p scorer lvl e)).getLinksD q L)
    ∧ ((b.link_on_level p scorer lvl e).entry.getD e).idx ≠ p := by
  have hPlinks : ∀ q x, x ∈ b.getLinksD q lvl → x ≠ p := by
    intro q x hx hxp
    subst hxp
    rw [hframe q lvl le_rfl] at hx
    exact hfresh q lvl hx
  have ha : ∀ x ∈ (b.link_on_level p scorer lvl e).links, x ≠ p :=
    response_links_mem b p scorer lvl e (fun x => x ≠ p) hPlinks he
  refine ⟨?_, response_next_entry_mem b p scorer lvl e (fun x => x ≠ p) hPlinks he⟩
  intro q L
  rcases apply_link_response_cases b (b.link_on_level p scorer lvl e) q L with h | ⟨hL, hc⟩
  · rw [h]
    exact hself q L
  · rcases hc with ⟨hq, hv⟩ | ⟨pr, hpr, hq, hv⟩
    · rw [hv]
      intro hmem
      apply ha q hmem
      rw [hq, link_on_level_point_id]
    · obtain ⟨hmem1, hval⟩ := response_zip_mem b p scorer lvl e pr hpr
      rw [hv, hval]
      intro hmem
      rcases neighbor_update_subset b p scorer lvl pr.1 q hmem with h2 | h2
      · exact ha pr.1 hmem1 (hq ▸ h2)
      · rw [hq] at h2
        exact hself q lvl h2

theorem apply_step_nodup (b b0 : GraphLinearBuilder) (p : PointOffsetType)
    (scorer : FilteredScorer) (lvl : Nat) (e : ScoredPointOffset)
    (hframe : ∀ q L, L ≤ lvl → b.getLinksD q L = b0.getLinksD q L)
    (hfresh : ∀ q L, p ∉ b0.getLinksD q L)
    (hnodup : ∀ q L, (b.getLinksD q L).Nodup) :
    ∀ q L, ((b.apply_link_response (b.link_on_level p scorer lvl e)).getLinksD q L).Nodup := by
  intro q L
  rcases apply_link_response_cases b (b.link_on_level p scorer lvl e) q L with h | ⟨hL, hc⟩
  · rw [h]
    exact hnodup q L
  · rcases hc with ⟨_, hv⟩ | ⟨pr, hpr, _, hv⟩
    · rw [hv]
      exact response_links_nodup b p scorer lvl e (hnodup p lvl)
    · obtain ⟨_, hval⟩ := response_zip_mem b p scorer lvl e pr hpr
      rw [hv, hval]
      apply neighbor_update_nodup b p scorer lvl pr.1 (hnodup pr.1 lvl)
      rw [hframe pr.1 lvl le_rfl]
      exact hfresh pr.1 lvl

/-! ### Linking-loop invariants -/

theorem link_responses_self (scorer : FilteredScorer) (p : PointOffsetType)
    (b0 : GraphLinearBuilder) (hfresh : ∀ q L, p ∉ b0.getLinksD q L) :
    ∀ (curr : Nat) (b : GraphLinearBuilder) (e : ScoredPointOffset),
      (∀ q L, L ≤ curr → b.getLinksD q L = b0.getLinksD q L) →
      (∀ q L, q ∉ b.getLinksD q L) →
      e.idx ≠ p →
      ∀ q L, q ∉ ((link_responses scorer p b curr e).foldl apply_link_response b).getLinksD q L := by
  intro curr
  induction curr with
  | zero =>
    intro b e hframe hself he q L
    have h0 : ((link_responses scorer p b 0 e).foldl apply_link_response b)
        = b.apply_link_response (b.link_on_level p scorer 0 e) := rfl
    rw [h0]
    exact (apply_step_self b b0 p scorer 0 e hframe hfresh hself he).1 q L
  | succ curr ih =>
    intro b e hframe hself he q L
    have h0 : ((link_responses scorer p b (curr + 1) e).foldl apply_link_response b)
        = (link_responses scorer p
            (b.apply_link_response (b.link_on_level p scorer (curr + 1) e)) curr
            ((b.link_on_level p scorer (curr + 1) e).entry.getD e)).foldl
          apply_link_response
          (b.apply_link_response (b.link_on_level p scorer (curr + 1) e)) := rfl
    rw [h0]
    obtain ⟨hself', he'⟩ := apply_step_self b b0 p scorer (curr + 1) e hframe hfresh hself he
    refine ih _ _ ?_ hself' he' q L
    intro q2 L2 hL2
    rw [apply_step_frame b p scorer (curr + 1) e q2 L2 (by omega)]
    exact hframe q2 L2 (by omega)

theorem link_responses_nodup (scorer : FilteredScorer) (p : PointOffsetType)
    (b0 : GraphLinearBuilder) (hfresh : ∀ q L, p ∉ b0.getLinksD q L) :
    ∀ (curr : Nat) (b : GraphLinearBuilder) (e : ScoredPointOffset),
      (∀ q L, L ≤ curr → b.getLinksD q L = b0.getLinksD q L) →
      (∀ q L, (b.getLinksD q L).Nodup) →
      ∀ q L,
        (((link_responses scorer p b curr e).foldl apply_link_response b).getLinksD q L).Nodup := by
  intro curr
  induction curr with
  | zero =>
    intro b e hframe hnodup q L
    have h0 : ((link_responses scorer p b 0 e).foldl apply_link_response b)
        = b.apply_link_response (b.link_on_level p scorer 0 e) := rfl
    rw [h0]
    exact apply_step_nodup b b0 p scorer 0 e hframe hfresh hnodup q L
  | succ curr ih =>
    intro b e hframe hnodup q L
    have h0 : ((link_responses scorer p b (curr + 1) e).foldl apply_link_response b)
        = (link_responses scorer p
            (b.apply_link_response (b.link_on_level p scorer (curr + 1) e)) curr
            ((b.link_on_level p scorer (curr + 1) e).entry.getD e)).foldl
          apply_link_response
          (b.apply_link_response (b.link_on_level p scorer (curr + 1) e)) := rfl
    rw [h0]
    refine ih _ _ ?_ (apply_step_nodup b b0 p scorer (curr + 1) e hframe hfresh hnodup) q L
    intro q2 L2 hL2
    rw [apply_step_frame b p scorer (curr + 1) e q2 L2 (by omega)]
    exact hframe q2 L2 (by omega)

theorem link_responses_levels (scorer : FilteredScorer) (p : PointOffsetType) :
    ∀ (curr : Nat) (b : GraphLinearBuilder) (e : ScoredPointOffset),
      ∀ r ∈ link_responses scorer p b curr e, r.level ≤ curr := by
  intro curr
  induction curr with
  | zero =>
    intro b e r hr
    have h0 : link_responses scorer p b 0 e = [b.link_on_level p scorer 0 e] := rfl
    rw [h0] at hr
    simp only [List.mem_singleton] at hr
    subst hr
    rw [link_on_level_level]
  | succ curr ih =>
    intro b e r hr
    have h0 : link_responses scorer p b (curr + 1) e
        = b.link_on_level p scorer (curr + 1) e ::
          link_responses scorer p
            (b.apply_link_response (b.link_on_level p scorer (curr + 1) e)) curr
            ((b.link_on_level p scorer (curr + 1) e).entry.getD e) := rfl
    rw [h0] at hr
    rcases List.mem_cons.mp hr with h | h
    · subst h
      rw [link_on_level_level]
    · exact Nat.le_succ_of_le (ih _ _ r h)

theorem link_responses_point_id (scorer : FilteredScorer) (p : PointOffsetType) :
    ∀ (curr : Nat) (b : GraphLinearBuilder) (e : ScoredPointOffset),
      ∀ r ∈ link_responses scorer p b curr e,
        r.point_id = p ∧ r.neighbor_ids = r.links := by
  intro curr
  induction curr with
  | zero =>
    intro b e r hr
    have h0 : link_responses scorer p b 0 e = [b.link_on_level p scorer 0 e] := rfl
    rw [h0] at hr
    simp only [List.mem_singleton] at hr
    subst hr
    exact ⟨link_on_level_point_id b p scorer 0 e, link_on_level_neighbor_ids b p scorer 0 e⟩
  | succ curr ih =>
    intro b e r hr
    have h0 : link_responses scorer p b (curr + 1) e
        = b.link_on_level p scorer (curr + 1) e ::
          link_responses scorer p
            (b.apply_link_response (b.link_on_level p scorer (curr + 1) e)) curr
            ((b.link_on_level p scorer (curr + 1) e).entry.getD e) := rfl
    rw [h0] at hr
    rcases List.mem_cons.mp hr with h | h
    · subst h
      exact ⟨link_on_level_point_id b p scorer (curr + 1) e,
        link_on_level_neighbor_ids b p scorer (curr + 1) e⟩
    · exact ih _ _ r h

theorem foldl_apply_frame (scorer : FilteredScorer) (p : PointOffsetType) :
    ∀ (curr : Nat) (b : GraphLinearBuilder) (e : ScoredPointOffset) (q L : Nat),
      ((link_responses scorer p b curr e).foldl apply_link_response b).getLinksD q L
          ≠ b.getLinksD q L →
      ∃ r ∈ link_responses scorer p b curr e, r.level = L ∧ (q = p ∨ q ∈ r.links) := by
  intro curr
  induction curr with
  | zero =>
    intro b e q L hne
    have h0 : ((link_responses scorer p b 0 e).foldl apply_link_response b)
        = b.apply_link_response (b.link_on_level p scorer 0 e) := rfl
    rw [h0] at hne
    obtain ⟨hL, hq⟩ := apply_link_response_frame b _ q L hne
    refine ⟨b.link_on_level p scorer 0 e, by simp [link_responses], hL.symm, ?_⟩
    rcases hq with h | h
    · rw [link_on_level_point_id] at h
      exact Or.inl h
    · rw [link_on_level_neighbor_ids] at h
      exact Or.inr h
  | succ curr ih =>
    intro b e q L hne
    have h0 : ((link_responses scorer p b (curr + 1) e).foldl apply_link_response b)
        = (link_responses scorer p
            (b.apply_link_response (b.link_on_level p scorer (curr + 1) e)) curr
            ((b.link_on_level p scorer (curr + 1) e).entry.getD e)).foldl
          apply_link_response
          (b.apply_link_response (b.link_on_level p scorer (curr + 1) e)) := rfl
    have hcons : link_responses scorer p b (curr + 1) e
        = b.link_on_level p scorer (curr + 1) e ::
          link_responses scorer p
            (b.apply_link_response (b.link_on_level p scorer (curr + 1) e)) curr
            ((b.link_on_level p scorer (curr + 1) e).entry.getD e) := rfl
    rw [h0] at hne
    by_cases h1 : ((link_responses scorer p
          (b.apply_link_response (b.link_on_level p scorer (curr + 1) e)) curr
          ((b.link_on_level p scorer (curr + 1) e).entry.getD e)).foldl
        apply_link_response
        (b.apply_link_response (b.link_on_level p scorer (curr + 1) e))).getLinksD q L
        = (b.apply_link_response (b.link_on_level p scorer (curr + 1) e)).getLinksD q L
    · have hne2 : (b.apply_link_response (b.link_on_level p scorer (curr + 1) e)).getLinksD q L
          ≠ b.getLinksD q L := by
        rw [← h1]
        exact hne
      obtain ⟨hL, hq⟩ := apply_link_response_frame b _ q L hne2
      refine ⟨b.link_on_level p scorer (curr + 1) e, by rw [hcons]; simp, hL.symm, ?_⟩
      rcases hq with h | h
      · rw [link_on_level_point_id] at h
        exact Or.inl h
      · rw [link_on_level_neighbor_ids] at h
        exact Or.inr h
    · obtain ⟨r, hr, hrl, hrq⟩ := ih _ _ q L h1
      exact ⟨r, by rw [hcons]; exact List.mem_cons_of_mem _ hr, hrl, hrq⟩

theorem foldl_apply_shape :
    ∀ (rs : List GraphLinkResponse) (b : GraphLinearBuilder),
      ((rs.foldl apply_link_response b).links_layers.length = b.links_layers.length
        ∧ ∀ q, ((rs.foldl apply_link_response b).links_layers.getD q []).length
            = (b.links_layers.getD q []).length) := by
  intro rs
  induction rs with
  | nil => intro b; exact ⟨rfl, fun _ => rfl⟩
  | cons r t ih =>
    intro b
    obtain ⟨h1, h2⟩ := ih (b.apply_link_response r)
    simp only [List.foldl_cons]
    constructor
    · rw [h1, (apply_link_response_shape b r).2.2.2.2.1]
    · intro q
      rw [h2 q, (apply_link_response_shape b r).2.2.2.2.2 q]

end GraphLinearBuilder


/-! ### Concrete-instance helper lemmas -/

theorem builderW1_layers : builderW1.links_layers = [[[]], [[]]] := by decide

theorem builderW1_links (q L : Nat) : builderW1.getLinksD q L = [] := by
  unfold GraphLinearBuilder.getLinksD
  rw [builderW1_layers]
  rcases q with _ | _ | q
  · rcases L with _ | L
    · rfl
    · rw [List.getD_cons_zero, List.getD_cons_succ, List.getD_nil]
  · rcases L with _ | L
    · rfl
    · rw [List.getD_cons_succ, List.getD_cons_zero, List.getD_cons_succ, List.getD_nil]
  · rw [show (([[[]], [[]]] : List (List (List PointOffsetType))).getD (q + 2) []) = []
      from List.getD_eq_default _ _ (by simp)]
    rw [List.getD_nil]

/-! ### Claim theorems -/

/-- C1: the heuristic selector (`select_candidate_with_heuristic_from_sorted`,
also as wrapped by `select_candidates_with_heuristic`) returns at most `m`
ids; scanning the sorted candidates, a candidate `c` is accepted exactly
when fewer than `m` ids are selected so far and `score_internal(c.idx, s) ≤
c.score` for every already-selected `s`; and the beam-search queue handed to
it yields its elements in descending score order. -/
theorem c1_heuristic_selection (scorer : FilteredScorer) (m : Nat) :
    (∀ cands : List ScoredPointOffset,
      (select_candidate_with_heuristic_from_sorted scorer cands m).length ≤ m)
    ∧ (∀ q : FixedLengthPriorityQueue,
        select_candidates_with_heuristic q m scorer
          = select_candidate_with_heuristic_from_sorted scorer q.elems m)
    ∧ (∀ (pre : List ScoredPointOffset) (c : ScoredPointOffset)
        (post : List ScoredPointOffset),
        select_candidate_with_heuristic_from_sorted scorer (pre ++ c :: post) m
          = selectLoop scorer m (c :: post) (selectLoop scorer m pre [])
        ∧ selectLoop scorer m (pre ++ [c]) []
          = (if (selectLoop scorer m pre []).length < m
                ∧ ∀ s ∈ selectLoop scorer m pre [], scorer.score_internal c.idx s ≤ c.score
             then selectLoop scorer m pre [] ++ [c.idx]
             else selectLoop scorer m pre []))
    ∧ (∀ (b : GraphLinearBuilder) (e : ScoredPointOffset) (level ef : Nat)
        (sc : FilteredScorer) (links : List PointOffsetType),
        SortedDesc (b.search_on_level e level ef sc links).elems) := by
  refine ⟨fun cands => select_from_sorted_length scorer cands m, fun _ => rfl, ?_, ?_⟩
  · intro pre c post
    constructor
    · exact selectLoop_append scorer m pre (c :: post) []
    · rw [selectLoop_append scorer m pre [c] []]
      exact selectLoop_step scorer m c (selectLoop scorer m pre [])
  · intro b e level ef sc links
    exact GraphLinearBuilder.search_on_level_sorted b e level ef sc links

/-- C2: for each forward link `n` of the new point, if `n`'s list at this
level is below the budget the new list is the old list with `p` appended;
otherwise it is the heuristic selection with the level's budget over the
`M_level + 1` candidates `p` and all of `n`'s existing neighbors, each
scored against `n`, consumed in descending score order. -/
theorem c2_reciprocal_update (b : GraphLinearBuilder) (p : PointOffsetType)
    (scorer : FilteredScorer) (level : Nat) (e : ScoredPointOffset)
    (hcap : ∀ n ∈ (b.link_on_level p scorer level e).links,
      (b.getLinksD n level).length ≤ b.get_m level) :
    (b.link_on_level p scorer level e).neighbor_ids
        = (b.link_on_level p scorer level e).links
    ∧ (b.link_on_level p scorer level e).neighbor_links
        = (b.link_on_level p scorer level e).links.map (fun n =>
            if (b.getLinksD n level).length < b.get_m level
            then b.getLinksD n level ++ [p]
            else select_candidate_with_heuristic_from_sorted scorer
              (heapSortedDesc ((⟨p, scorer.score_internal p n⟩ : ScoredPointOffset) ::
                (b.getLinksD n level).map
                  (fun l => (⟨l, scorer.score_internal l n⟩ : ScoredPointOffset))))
              (b.get_m level))
    ∧ (∀ n ∈ (b.link_on_level p scorer level e).links,
        ¬ (b.getLinksD n level).length < b.get_m level →
        ((⟨p, scorer.score_internal p n⟩ : ScoredPointOffset) ::
          (b.getLinksD n level).map
            (fun l => (⟨l, scorer.score_internal l n⟩ : ScoredPointOffset))).length
          = b.get_m level + 1
        ∧ SortedDesc (heapSortedDesc ((⟨p, scorer.score_internal p n⟩ : ScoredPointOffset) ::
            (b.getLinksD n level).map
              (fun l => (⟨l, scorer.score_internal l n⟩ : ScoredPointOffset))))) := by
  refine ⟨GraphLinearBuilder.link_on_level_neighbor_ids b p scorer level e, ?_, ?_⟩
  · rw [GraphLinearBuilder.link_on_level_neighbor_links]
    apply List.map_congr_left
    intro n hn
    unfold GraphLinearBuilder.neighbor_update
    dsimp only
    split
    · rfl
    · have hlen : (b.getLinksD n level).length = b.get_m level := by
        have := hcap n hn
        omega
      rw [List.take_of_length_le (le_of_eq hlen)]
  · intro n hn hge
    have hlen : (b.getLinksD n level).length = b.get_m level := by
      have := hcap n hn
      omega
    constructor
    · simp [hlen]
    · exact heapSortedDesc_sorted _

/-- C2 witness: at a concrete two-point builder, the hypothesis and the
conclusion hold at level 0 with entry `(0, 5)`. -/
theorem c2_witness :
    (∀ n ∈ (builderW1.link_on_level 1 (scorerW 1) 0 ⟨0, 5⟩).links,
      (builderW1.getLinksD n 0).length ≤ builderW1.get_m 0)
    ∧ ((builderW1.link_on_level 1 (scorerW 1) 0 ⟨0, 5⟩).neighbor_ids
          = (builderW1.link_on_level 1 (scorerW 1) 0 ⟨0, 5⟩).links
      ∧ (builderW1.link_on_level 1 (scorerW 1) 0 ⟨0, 5⟩).neighbor_links
          = (builderW1.link_on_level 1 (scorerW 1) 0 ⟨0, 5⟩).links.map (fun n =>
              if (builderW1.getLinksD n 0).length < builderW1.get_m 0
              then builderW1.getLinksD n 0 ++ [1]
              else select_candidate_with_heuristic_from_sorted (scorerW 1)
                (heapSortedDesc ((⟨1, (scorerW 1).score_internal 1 n⟩ : ScoredPointOffset) ::
                  (builderW1.getLinksD n 0).map
                    (fun l => (⟨l, (scorerW 1).score_internal l n⟩ : ScoredPointOffset))))
                (builderW1.get_m 0))
      ∧ (∀ n ∈ (builderW1.link_on_level 1 (scorerW 1) 0 ⟨0, 5⟩).links,
          ¬ (builderW1.getLinksD n 0).length < builderW1.get_m 0 →
          ((⟨1, (scorerW 1).score_internal 1 n⟩ : ScoredPointOffset) ::
            (builderW1.getLinksD n 0).map
              (fun l => (⟨l, (scorerW 1).score_internal l n⟩ : ScoredPointOffset))).length
            = builderW1.get_m 0 + 1
          ∧ SortedDesc (heapSortedDesc
              ((⟨1, (scorerW 1).score_internal 1 n⟩ : ScoredPointOffset) ::
              (builderW1.getLinksD n 0).map
                (fun l => (⟨l, (scorerW 1).score_internal l n⟩ : ScoredPointOffset)))))) := by
  have hcap : ∀ n ∈ (builderW1.link_on_level 1 (scorerW 1) 0 ⟨0, 5⟩).links,
      (builderW1.getLinksD n 0).length ≤ builderW1.get_m 0 := by
    intro n _
    rw [builderW1_links]
    exact Nat.zero_le _
  exact ⟨hcap, c2_reciprocal_update builderW1 1 (scorerW 1) 0 ⟨0, 5⟩ hcap⟩

/-- C3: provided every list respects its per-level cap before the call,
every list still respects the cap (`M_level(0) = M0`, `M_level(L) = M` for
`L > 0`, i.e. `get_m`) after `link_new_point` completes. -/
theorem c3_cap_preserved (b : GraphLinearBuilder) (p : PointOffsetType)
    (scorer : FilteredScorer)
    (hcap : ∀ q L, (b.getLinksD q L).length ≤ b.get_m L) :
    ∀ q L, ((b.link_new_point p scorer).getLinksD q L).length ≤ b.get_m L := by
  cases h : (b.entry_points.new_point p (b.get_point_level p) scorer.admits).1 with
  | none =>
    rw [GraphLinearBuilder.link_new_point_none b p scorer h]
    exact hcap
  | some ep =>
    rw [GraphLinearBuilder.link_new_point_some b p scorer ep h]
    exact GraphLinearBuilder.link_responses_cap scorer p
      (min (b.get_point_level p) ep.level)
      { b with entry_points :=
          (b.entry_points.new_point p (b.get_point_level p) scorer.admits).2 }
      (b.level_entry_of p scorer ep) hcap

/-- C3 witness: the cap hypothesis and conclusion at a concrete insertion. -/
theorem c3_witness :
    (∀ q L, (builderW1.getLinksD q L).length ≤ builderW1.get_m L)
    ∧ (∀ q L, ((builderW1.link_new_point 1 (scorerW 1)).getLinksD q L).length
        ≤ builderW1.get_m L) := by
  have hcap : ∀ q L, (builderW1.getLinksD q L).length ≤ builderW1.get_m L := by
    intro q L
    rw [builderW1_links]
    exact Nat.zero_le _
  exact ⟨hcap, c3_cap_preserved builderW1 1 (scorerW 1) hcap⟩

/-- C4: a scored candidate is pushed onto the frontier heap exactly when its
push into the bounded nearest queue displaced nothing or displaced an
element with a different id; otherwise the frontier is unchanged, and the
nearest queue is always the pushed queue. -/
theorem c4_process_candidate_push (nearest : FixedLengthPriorityQueue)
    (cands : List ScoredPointOffset) (sp : ScoredPointOffset) :
    (process_candidate nearest cands sp).1 = (nearest.push sp).1
    ∧ ((process_candidate nearest cands sp).2 = insertDesc sp cands
        ∨ (process_candidate nearest cands sp).2 = cands)
    ∧ ((process_candidate nearest cands sp).2 = insertDesc sp cands
        ↔ ((nearest.push sp).2 = none
            ∨ ∃ r, (nearest.push sp).2 = some r ∧ r.idx ≠ sp.idx)) := by
  have key : (process_candidate nearest cands sp).2 =
      (match (nearest.push sp).2 with
        | none => insertDesc sp cands
        | some removed => if removed.idx ≠ sp.idx then insertDesc sp cands else cands) := by
    unfold process_candidate
    dsimp only
    cases (nearest.push sp).2 with
    | none => rfl
    | some r =>
      by_cases hr : r.idx = sp.idx
      · simp [hr]
      · simp [hr]
  refine ⟨rfl, ?_, ?_⟩
  · rw [key]
    cases hp : (nearest.push sp).2 with
    | none => exact Or.inl rfl
    | some r =>
      dsimp only
      by_cases hr : r.idx = sp.idx
      · rw [if_neg (by simp [hr])]
        exact Or.inr rfl
      · rw [if_pos hr]
        exact Or.inl rfl
  · rw [key]
    cases hp : (nearest.push sp).2 with
    | none =>
      constructor
      · intro _
        exact Or.inl rfl
      · intro _
        rfl
    | some r =>
      dsimp only
      by_cases hr : r.idx = sp.idx
      · rw [if_neg (by simp [hr])]
        constructor
        · intro hc
          exact absurd hc.symm (insertDesc_ne sp cands)
        · intro hc
          rcases hc with hc | ⟨r2, hr2, hne⟩
          · cases hc
          · simp only [Option.some.injEq] at hr2
            subst hr2
            exact absurd hr hne
      · rw [if_pos hr]
        constructor
        · intro _
          exact Or.inr ⟨r, rfl, hr⟩
        · intro _
          rfl

/-- C4 witness: the characterization instantiated at a concrete queue,
frontier and candidate. -/
theorem c4_witness :
    (process_candidate ⟨2, [⟨0, 5⟩]⟩ [⟨0, 5⟩] ⟨1, 7⟩).1 = ((⟨2, [⟨0, 5⟩]⟩ :
        FixedLengthPriorityQueue).push ⟨1, 7⟩).1
    ∧ ((process_candidate ⟨2, [⟨0, 5⟩]⟩ [⟨0, 5⟩] ⟨1, 7⟩).2 = insertDesc ⟨1, 7⟩ [⟨0, 5⟩]
        ∨ (process_candidate ⟨2, [⟨0, 5⟩]⟩ [⟨0, 5⟩] ⟨1, 7⟩).2 = [⟨0, 5⟩])
    ∧ ((process_candidate ⟨2, [⟨0, 5⟩]⟩ [⟨0, 5⟩] ⟨1, 7⟩).2 = insertDesc ⟨1, 7⟩ [⟨0, 5⟩]
        ↔ (((⟨2, [⟨0, 5⟩]⟩ : FixedLengthPriorityQueue).push ⟨1, 7⟩).2 = none
            ∨ ∃ r, ((⟨2, [⟨0, 5⟩]⟩ : FixedLengthPriorityQueue).push ⟨1, 7⟩).2 = some r
                ∧ r.idx ≠ 1)) :=
  c4_process_candidate_push ⟨2, [⟨0, 5⟩]⟩ [⟨0, 5⟩] ⟨1, 7⟩

/-- C5: under the documented lifecycle (the inserted point is fresh: it
occurs in no neighbor list, no self-loops exist, and no registry descriptor
is the point itself), no list has a self-loop after `link_new_point`; in
particular the inserted point's forward links and every re-pruned neighbor
list avoid their own point's id. -/
theorem c5_no_self_loops (b : GraphLinearBuilder) (p : PointOffsetType)
    (scorer : FilteredScorer)
    (hfresh : ∀ q L, p ∉ b.getLinksD q L)
    (hself : ∀ q L, q ∉ b.getLinksD q L)
    (hentry : ∀ d ∈ b.entry_points.points, d.point_id ≠ p) :
    ∀ q L, q ∉ (b.link_new_point p scorer).getLinksD q L := by
  cases h : (b.entry_points.new_point p (b.get_point_level p) scorer.admits).1 with
  | none =>
    rw [GraphLinearBuilder.link_new_point_none b p scorer h]
    exact hself
  | some ep =>
    rw [GraphLinearBuilder.link_new_point_some b p scorer ep h]
    have hep : ep ∈ b.entry_points.points := new_point_some_mem _ _ _ _ ep h
    have he : (b.level_entry_of p scorer ep).idx ≠ p := by
      refine GraphLinearBuilder.level_entry_of_mem b p scorer ep (fun x => x ≠ p) ?_
        (hentry ep hep)
      intro q L x hx hxp
      subst hxp
      exact hfresh q L hx
    exact GraphLinearBuilder.link_responses_self scorer p b hfresh
      (min (b.get_point_level p) ep.level)
      { b with entry_points :=
          (b.entry_points.new_point p (b.get_point_level p) scorer.admits).2 }
      (b.level_entry_of p scorer ep) (fun _ _ _ => rfl) hself he

/-- C5 witness: the freshness hypotheses and conclusion at a concrete
insertion of point 1 into the one-point graph. -/
theorem c5_witness :
    (∀ q L, 1 ∉ builderW1.getLinksD q L)
    ∧ (∀ q L, q ∉ builderW1.getLinksD q L)
    ∧ (∀ d ∈ builderW1.entry_points.points, d.point_id ≠ 1)
    ∧ (∀ q L, q ∉ (builderW1.link_new_point 1 (scorerW 1)).getLinksD q L) := by
  have hfresh : ∀ q L, (1 : PointOffsetType) ∉ builderW1.getLinksD q L := by
    intro q L
    rw [builderW1_links]
    exact List.not_mem_nil 1
  have hself : ∀ q L, q ∉ builderW1.getLinksD q L := by
    intro q L
    rw [builderW1_links]
    exact List.not_mem_nil q
  have hentry : ∀ d ∈ builderW1.entry_points.points, d.point_id ≠ 1 := by decide
  exact ⟨hfresh, hself, hentry, c5_no_self_loops builderW1 1 (scorerW 1) hfresh hself hentry⟩

/-- C6 counterexample: replaying the insertion of point 1 (its links are
already present in the graph) appends 1 to a neighbor list that already
contains it, producing the duplicate list `[1, 1]`. -/
theorem c6_duplicate_counterexample :
    builderW3.getLinksD 0 0 = [1, 1] ∧ ¬ (builderW3.getLinksD 0 0).Nodup := by
  decide

/-- C6 (amended): provided the inserted point is fresh (it occurs in no
neighbor list) and every list is duplicate-free beforehand, every list is
duplicate-free after `link_new_point`, including the case where the point's
own per-layer lists are non-empty when the existing-links pass runs. -/
theorem c6_nodup_fresh (b : GraphLinearBuilder) (p : PointOffsetType)
    (scorer : FilteredScorer)
    (hnodup : ∀ q L, (b.getLinksD q L).Nodup)
    (hfresh : ∀ q L, p ∉ b.getLinksD q L) :
    ∀ q L, ((b.link_new_point p scorer).getLinksD q L).Nodup := by
  cases h : (b.entry_points.new_point p (b.get_point_level p) scorer.admits).1 with
  | none =>
    rw [GraphLinearBuilder.link_new_point_none b p scorer h]
    exact hnodup
  | some ep =>
    rw [GraphLinearBuilder.link_new_point_some b p scorer ep h]
    exact GraphLinearBuilder.link_responses_nodup scorer p b hfresh
      (min (b.get_point_level p) ep.level)
      { b with entry_points :=
          (b.entry_points.new_point p (b.get_point_level p) scorer.admits).2 }
      (b.level_entry_of p scorer ep) (fun _ _ _ => rfl) hnodup

/-- C6 witness: the amended claim's hypotheses and conclusion at a concrete
fresh insertion. -/
theorem c6_witness :
    (∀ q L, (builderW1.getLinksD q L).Nodup)
    ∧ (∀ q L, 1 ∉ builderW1.getLinksD q L)
    ∧ (∀ q L, ((builderW1.link_new_point 1 (scorerW 1)).getLinksD q L).Nodup) := by
  have hnodup : ∀ q L, (builderW1.getLinksD q L).Nodup := by
    intro q L
    rw [builderW1_links]
    exact List.nodup_nil
  have hfresh : ∀ q L, (1 : PointOffsetType) ∉ builderW1.getLinksD q L := by
    intro q L
    rw [builderW1_links]
    exact List.not_mem_nil 1
  exact ⟨hnodup, hfresh, c6_nodup_fresh builderW1 1 (scorerW 1) hnodup hfresh⟩

/-- C7: when no registry descriptor satisfies the predicate (the registry
returns `None` for the inserted point), `link_new_point` leaves every
neighbor list of every point at every layer unchanged; in particular the
new point's per-layer lists stay as they were (empty stays empty). -/
theorem c7_no_entry_frame (b : GraphLinearBuilder) (p : PointOffsetType)
    (scorer : FilteredScorer)
    (h : ∀ d ∈ b.entry_points.points, scorer.admits d.point_id = false) :
    (b.link_new_point p scorer).links_layers = b.links_layers
    ∧ (∀ q L, (b.link_new_point p scorer).getLinksD q L = b.getLinksD q L)
    ∧ (∀ L, b.getLinksD p L = [] → (b.link_new_point p scorer).getLinksD p L = []) := by
  have hn := new_point_none_of b.entry_points p (b.get_point_level p) scorer.admits h
  rw [GraphLinearBuilder.link_new_point_none b p scorer hn]
  exact ⟨rfl, fun _ _ => rfl, fun _ hL => hL⟩

/-- C7 witness: inserting with an all-rejecting filter into the one-point
graph leaves the link store untouched. -/
theorem c7_witness :
    (∀ d ∈ builderW1.entry_points.points, scorerNone.admits d.point_id = false)
    ∧ ((builderW1.link_new_point 1 scorerNone).links_layers = builderW1.links_layers
      ∧ (∀ q L, (builderW1.link_new_point 1 scorerNone).getLinksD q L
          = builderW1.getLinksD q L)
      ∧ (∀ L, builderW1.getLinksD 1 L = []
          → (builderW1.link_new_point 1 scorerNone).getLinksD 1 L = [])) := by
  have h : ∀ d ∈ builderW1.entry_points.points, scorerNone.admits d.point_id = false := by
    decide
  exact ⟨h, c7_no_entry_frame builderW1 1 scorerNone h⟩

/-- C8: when the registry yields an entry point, a neighbor list
`links[q][L]` changes only if `L` is at most the linking level
`min(level(p), entry.level)` and `q` is the new point or one of the forward
links selected for `p` at `L` (the corresponding response's `links`); the
number of points and every point's layer count are unchanged. -/
theorem c8_link_frame (b : GraphLinearBuilder) (p : PointOffsetType)
    (scorer : FilteredScorer) (ep : EntryPoint)
    (h : (b.entry_points.new_point p (b.get_point_level p) scorer.admits).1 = some ep) :
    (∀ q L, (b.link_new_point p scorer).getLinksD q L ≠ b.getLinksD q L →
      L ≤ min (b.get_point_level p) ep.level
        ∧ ∃ r ∈ b.responses_of p scorer ep, r.level = L ∧ (q = p ∨ q ∈ r.links))
    ∧ (b.link_new_point p scorer).links_layers.length = b.links_layers.length
    ∧ (∀ q, ((b.link_new_point p scorer).links_layers.getD q []).length
        = (b.links_layers.getD q []).length) := by
  rw [GraphLinearBuilder.link_new_point_some b p scorer ep h]
  refine ⟨?_, (GraphLinearBuilder.foldl_apply_shape _ _).1,
    (GraphLinearBuilder.foldl_apply_shape _ _).2⟩
  intro q L hne
  obtain ⟨r, hr, hrl, hrq⟩ := GraphLinearBuilder.foldl_apply_frame scorer p
    (min (b.get_point_level p) ep.level)
    { b with entry_points :=
        (b.entry_points.new_point p (b.get_point_level p) scorer.admits).2 }
    (b.level_entry_of p scorer ep) q L hne
  refine ⟨?_, r, hr, hrl, hrq⟩
  rw [← hrl]
  exact GraphLinearBuilder.link_responses_levels scorer p _ _ _ r hr

/-- C8 witness: the frame property instantiated at a concrete insertion
that finds the entry point `(0, 0)`. -/
theorem c8_witness :
    ((builderW1.entry_points.new_point 1 (builderW1.get_point_level 1)
        (scorerW 1).admits).1 = some ⟨0, 0⟩)
    ∧ ((∀ q L, (builderW1.link_new_point 1 (scorerW 1)).getLinksD q L
          ≠ builderW1.getLinksD q L →
        L ≤ min (builderW1.get_point_level 1) (0 : Nat)
          ∧ ∃ r ∈ builderW1.responses_of 1 (scorerW 1) ⟨0, 0⟩, r.level = L
              ∧ (q = 1 ∨ q ∈ r.links))
      ∧ (builderW1.link_new_point 1 (scorerW 1)).links_layers.length
          = builderW1.links_layers.length
      ∧ (∀ q, ((builderW1.link_new_point 1 (scorerW 1)).links_layers.getD q []).length
          = (builderW1.links_layers.getD q []).length)) := by
  have h : (builderW1.entry_points.new_point 1 (builderW1.get_point_level 1)
      (scorerW 1).admits).1 = some ⟨0, 0⟩ := by decide
  exact ⟨h, c8_link_frame builderW1 1 (scorerW 1) ⟨0, 0⟩ h⟩


/-! ### GPU buffer lemmas -/

theorem u32le_length (x : Nat) : (u32le x).length = 4 := rfl

theorem paramsBytes_length (p : GpuVectorParamsBuffer) : p.bytes.length = 8 := rfl

theorem bufWrite_length (buf : List Nat) (off : Nat) (data : List Nat) :
    (bufWrite buf off data).length = buf.length := by
  unfold bufWrite
  simp only [List.length_append, List.length_take, List.length_drop]
  omega

theorem bufWrite_exact (buf : List Nat) (off : Nat) (data : List Nat)
    (h : off + data.length ≤ buf.length) :
    bufWrite buf off data = buf.take off ++ data ++ buf.drop (off + data.length) := by
  unfold bufWrite
  rw [List.take_of_length_le (show data.length ≤ buf.length - off by omega)]

theorem bufWrite_full (buf : List Nat) (data : List Nat)
    (h : data.length = buf.length) :
    bufWrite buf 0 data = data := by
  unfold bufWrite
  rw [List.take_zero, Nat.zero_add, List.take_of_length_le (by omega), h,
    List.drop_length]
  simp

theorem encodeVector_length {α : Type} (enc : α → List Nat)
    (henc : ∀ x, (enc x).length = 4) (v : List α) :
    (encodeVector enc v).length = 4 * v.length := by
  induction v with
  | nil => rfl
  | cons a t ih =>
    unfold encodeVector at *
    simp only [List.map_cons, List.flatten_cons, List.length_append, henc a, ih,
      List.length_cons]
    ring

theorem encJoin_length {α : Type} (enc : α → List Nat) (dim : Nat)
    (henc : ∀ x, (enc x).length = 4) :
    ∀ (vs : List (List α)), (∀ v ∈ vs, v.length = dim) →
      ((vs.map (encodeVector enc)).flatten).length = dim * vs.length * 4 := by
  intro vs
  induction vs with
  | nil => intro _; simp
  | cons v t ih =>
    intro hv
    simp only [List.map_cons, List.flatten_cons, List.length_append, List.length_cons]
    rw [encodeVector_length enc henc v, hv v (by simp),
      ih (fun x hx => hv x (by simp [hx]))]
    ring

theorem flatten_blocks_slice :
    ∀ (bs : List (List Nat)) (B : Nat), (∀ x ∈ bs, x.length = B) →
      ∀ i, i < bs.length → (bs.flatten.drop (i * B)).take B = bs.getD i [] := by
  intro bs
  induction bs with
  | nil => intro B _ i hi; simp at hi
  | cons b t ih =>
    intro B hB i hi
    cases i with
    | zero =>
      simp only [List.flatten_cons, Nat.zero_mul, List.drop_zero, List.getD_cons_zero]
      rw [← hB b (by simp)]
      exact List.take_left b t.flatten
    | succ i =>
      simp only [List.flatten_cons, List.getD_cons_succ]
      have harith : (i + 1) * B = b.length + i * B := by
        rw [hB b (by simp)]
        ring
      rw [harith, List.drop_append]
      exact ih B (fun x hx => hB x (by simp [hx])) i (by simpa using hi)

theorem uploadVectorsLoop_succ {α : Type} (enc : α → List Nat) (dim : Nat)
    (vectors : List (List α)) (k : Nat) (st : List Nat × List Nat) :
    uploadVectorsLoop enc dim vectors (k + 1) st =
      (copy_gpu_buffer
          (bufWrite (uploadVectorsLoop enc dim vectors k st).2 0
            (encodeVector enc (vectors.getD k [])))
          (uploadVectorsLoop enc dim vectors k st).1 0 (k * dim * 4) (dim * 4),
        bufWrite (uploadVectorsLoop enc dim vectors k st).2 0
          (encodeVector enc (vectors.getD k []))) := by
  unfold uploadVectorsLoop
  rw [List.range_succ, List.foldl_append]
  rfl

theorem uploadVectorsLoop_result {α : Type} (enc : α → List Nat) (dim : Nat)
    (vectors : List (List α)) (henc : ∀ x, (enc x).length = 4)
    (hv : ∀ v ∈ vectors, v.length = dim) (staging0 : List Nat)
    (hst : staging0.length = dim * 4) :
    ∀ k, k ≤ vectors.length →
      ((uploadVectorsLoop enc dim vectors k
          (List.replicate (dim * vectors.length * 4) 0, staging0)).1
        = ((vectors.take k).map (encodeVector enc)).flatten
          ++ List.replicate (dim * (vectors.length - k) * 4) 0
      ∧ (uploadVectorsLoop enc dim vectors k
          (List.replicate (dim * vectors.length * 4) 0, staging0)).2.length
          = dim * 4) := by
  intro k
  induction k with
  | zero =>
    intro _
    constructor
    · simp [uploadVectorsLoop]
    · simpa [uploadVectorsLoop] using hst
  | succ k ih =>
    intro hk
    obtain ⟨ihB, ihS⟩ := ih (by omega)
    have hklt : k < vectors.length := by omega
    have hget : (vectors.getD k []).length = dim := by
      rw [List.getD_eq_getElem vectors [] hklt]
      exact hv _ (List.getElem_mem hklt)
    have hencV : (encodeVector enc (vectors.getD k [])).length = dim * 4 := by
      rw [encodeVector_length enc henc, hget]
      ring
    have hJlen : (((vectors.take k).map (encodeVector enc)).flatten).length
        = dim * k * 4 := by
      rw [encJoin_length enc dim henc _ (fun x hx => hv x (List.mem_of_mem_take hx))]
      rw [List.length_take, Nat.min_eq_left (le_of_lt hklt)]
    have hstg : bufWrite (uploadVectorsLoop enc dim vectors k
          (List.replicate (dim * vectors.length * 4) 0, staging0)).2 0
          (encodeVector enc (vectors.getD k []))
        = encodeVector enc (vectors.getD k []) := by
      apply bufWrite_full
      rw [hencV, ihS]
    rw [uploadVectorsLoop_succ]
    constructor
    · dsimp only
      rw [hstg]
      unfold copy_gpu_buffer
      rw [List.drop_zero, List.take_of_length_le (le_of_eq hencV), ihB]
      have hZle : dim * 4 ≤ dim * (vectors.length - k) * 4 := by
        have h1 : 1 ≤ vectors.length - k := by omega
        calc dim * 4 = dim * 1 * 4 := by ring
          _ ≤ dim * (vectors.length - k) * 4 :=
            Nat.mul_le_mul (Nat.mul_le_mul (le_refl dim) h1) (le_refl 4)
      have hofflen : k * dim * 4 + (encodeVector enc (vectors.getD k [])).length
          ≤ (((vectors.take k).map (encodeVector enc)).flatten
              ++ List.replicate (dim * (vectors.length - k) * 4) 0).length := by
        rw [hencV, List.length_append, hJlen, List.length_replicate]
        have hco : k * dim * 4 = dim * k * 4 := by ring
        rw [hco]
        exact Nat.add_le_add_left hZle (dim * k * 4)
      rw [bufWrite_exact _ _ _ hofflen]
      have hoff : k * dim * 4
          = (((vectors.take k).map (encodeVector enc)).flatten).length := by
        rw [hJlen]
        ring
      rw [hoff, List.take_left, hencV, List.drop_append]
      have hdrop : (List.replicate (dim * (vectors.length - k) * 4)
            (0 : Nat)).drop (dim * 4)
          = List.replicate (dim * (vectors.length - (k + 1)) * 4) 0 := by
        rw [List.drop_replicate]
        congr 1
        have h1 : vectors.length - (k + 1) = (vectors.length - k) - 1 := by omega
        rw [h1]
        have h2 : ∀ c : Nat, dim * c * 4 = c * (dim * 4) := by intro c; ring
        rw [h2 (vectors.length - k), h2 (vectors.length - k - 1),
          Nat.sub_mul (vectors.length - k) 1 (dim * 4), one_mul]
      rw [hdrop]
      have htake : vectors.take (k + 1)
          = vectors.take k ++ [vectors.getD k []] := by
        rw [List.take_succ, List.getElem?_eq_getElem hklt]
        rw [List.getD_eq_getElem vectors [] hklt]
        rfl
      rw [htake]
      simp [List.map_append, List.flatten_append, List.append_assoc, encodeVector]
    · dsimp only
      rw [hstg, hencV]

theorem gpu_params_buffer_eq (dim count : Nat) (hdim : 2 ≤ dim) :
    copy_gpu_buffer
        (bufWrite (List.replicate (dim * 4) 0) 0 (GpuVectorParamsBuffer.bytes ⟨dim, count⟩))
        (List.replicate 8 0) 0 0 8
      = u32le dim ++ u32le count := by
  have hb : (GpuVectorParamsBuffer.bytes ⟨dim, count⟩).length = 8 := rfl
  have h1 : bufWrite (List.replicate (dim * 4) 0) 0 (GpuVectorParamsBuffer.bytes ⟨dim, count⟩)
      = GpuVectorParamsBuffer.bytes ⟨dim, count⟩ ++ List.replicate (dim * 4 - 8) 0 := by
    rw [bufWrite_exact _ _ _ (by rw [hb, List.length_replicate]; omega)]
    rw [List.take_zero, hb, Nat.zero_add, List.drop_replicate]
    rfl
  unfold copy_gpu_buffer
  rw [h1, List.drop_zero]
  have h2 : ((GpuVectorParamsBuffer.bytes ⟨dim, count⟩
        ++ List.replicate (dim * 4 - 8) 0).take 8)
      = GpuVectorParamsBuffer.bytes ⟨dim, count⟩ := by
    rw [← hb, List.take_left]
  rw [h2]
  rw [bufWrite_full _ _ (by rw [hb, List.length_replicate])]
  rfl

/-- C9 counterexample: the claimed uniform-buffer layout fails at
`dim = 1`.  The 8-byte params struct is routed through the single
`dim * 4 = 4`-byte staging buffer, so only the `dim` field survives and
the `count` field is lost: the params buffer is not `u32le dim ++ u32le
count` for the one-vector store of dimension 1. -/
theorem c9_params_counterexample :
    (GpuVectorStorage.new (fun n : Nat => [n, 0, 0, 0]) 1 [[5]]).params_buffer
        = [1, 0, 0, 0, 0, 0, 0, 0]
    ∧ (GpuVectorStorage.new (fun n : Nat => [n, 0, 0, 0]) 1 [[5]]).params_buffer
        ≠ u32le 1 ++ u32le 1
    ∧ (∀ x : Nat, ((fun n : Nat => [n, 0, 0, 0]) x).length = 4)
    ∧ (∀ v ∈ [[5]], List.length v = 1) :=
  ⟨by decide, by decide, fun _ => rfl, by decide⟩

/-- C9 (amended): `GpuVectorStorage::new` lays the device memory out as
specified whenever the 8-byte params struct fits through the staging
buffer, i.e. for `dim ≥ 2`: the 8-byte uniform buffer holds the two
packed `u32` fields `dim` then `count`; the storage buffer is the
row-major concatenation of the `count` encoded vectors, vector `i`
occupying byte offsets `i * dim * 4` through `(i + 1) * dim * 4`; the
upload goes through a single reused `dim * 4`-byte staging buffer. -/
theorem c9_gpu_layout {α : Type} (enc : α → List Nat) (dim : Nat)
    (vectors : List (List α)) (hdim : 2 ≤ dim)
    (henc : ∀ x, (enc x).length = 4) (hv : ∀ v ∈ vectors, v.length = dim) :
    (GpuVectorStorage.new enc dim vectors).params_buffer
        = u32le dim ++ u32le vectors.length
    ∧ (GpuVectorStorage.new enc dim vectors).params_buffer.length = 8
    ∧ (GpuVectorStorage.new enc dim vectors).vectors_buffer
        = (vectors.map (encodeVector enc)).flatten
    ∧ (GpuVectorStorage.new enc dim vectors).vectors_buffer.length
        = dim * vectors.length * 4
    ∧ (∀ i, i < vectors.length →
        (((GpuVectorStorage.new enc dim vectors).vectors_buffer.drop
            (i * (dim * 4))).take (dim * 4))
          = encodeVector enc (vectors.getD i [])) := by
  have hparams : (GpuVectorStorage.new enc dim vectors).params_buffer
      = u32le dim ++ u32le vectors.length := by
    unfold GpuVectorStorage.new
    dsimp only
    exact gpu_params_buffer_eq dim vectors.length hdim
  have hbuf : (GpuVectorStorage.new enc dim vectors).vectors_buffer
      = (vectors.map (encodeVector enc)).flatten := by
    unfold GpuVectorStorage.new
    dsimp only
    have hst1 : (bufWrite (List.replicate (dim * 4) 0) 0
        (GpuVectorParamsBuffer.bytes ⟨dim, vectors.length⟩)).length = dim * 4 := by
      rw [bufWrite_length, List.length_replicate]
    have := (uploadVectorsLoop_result enc dim vectors henc hv _ hst1
      vectors.length le_rfl).1
    rw [this, List.take_length]
    simp
  have hlen : (GpuVectorStorage.new enc dim vectors).vectors_buffer.length
      = dim * vectors.length * 4 := by
    rw [hbuf]
    exact encJoin_length enc dim henc vectors hv
  refine ⟨hparams, by rw [hparams]; rfl, hbuf, hlen, ?_⟩
  intro i hi
  rw [hbuf]
  have hblocks : ∀ x ∈ vectors.map (encodeVector enc), x.length = dim * 4 := by
    intro x hx
    rcases List.mem_map.mp hx with ⟨v, hvmem, hve⟩
    rw [← hve, encodeVector_length enc henc, hv v hvmem]
    ring
  have := flatten_blocks_slice (vectors.map (encodeVector enc)) (dim * 4) hblocks i
    (by simpa using hi)
  rw [this]
  rw [List.getD_eq_getElem _ [] (by simpa using hi)]
  rw [List.getElem_map]
  rw [List.getD_eq_getElem vectors [] hi]

/-- C9 witness: the layout at a concrete 2-dimensional two-vector store
with a concrete 4-byte encoding. -/
theorem c9_witness :
    ((2 : Nat) ≤ 2 ∧ (∀ x : Nat, ([x, 0, 0, 0] : List Nat).length = 4)
      ∧ ∀ v ∈ [[1, 2], [3, 4]], List.length v = 2)
    ∧ ((GpuVectorStorage.new (fun x => [x, 0, 0, 0]) 2 [[1, 2], [3, 4]]).params_buffer
          = u32le 2 ++ u32le 2
      ∧ (GpuVectorStorage.new (fun x => [x, 0, 0, 0]) 2 [[1, 2], [3, 4]]).params_buffer.length
          = 8
      ∧ (GpuVectorStorage.new (fun x => [x, 0, 0, 0]) 2 [[1, 2], [3, 4]]).vectors_buffer
          = ([[1, 2], [3, 4]].map (encodeVector (fun x => [x, 0, 0, 0]))).flatten
      ∧ (GpuVectorStorage.new (fun x => [x, 0, 0, 0]) 2 [[1, 2], [3, 4]]).vectors_buffer.length
          = 2 * 2 * 4
      ∧ (∀ i, i < 2 →
          ((((GpuVectorStorage.new (fun x => [x, 0, 0, 0]) 2
              [[1, 2], [3, 4]]).vectors_buffer.drop (i * (2 * 4))).take (2 * 4))
            = encodeVector (fun x => [x, 0, 0, 0]) ([[1, 2], [3, 4]].getD i [])))) := by
  have h1 : (2 : Nat) ≤ 2 := le_refl 2
  have h2 : ∀ x : Nat, ([x, 0, 0, 0] : List Nat).length = 4 := fun _ => rfl
  have h3 : ∀ v ∈ [[1, 2], [3, 4]], List.length v = 2 := by decide
  have hmain := c9_gpu_layout (fun x => [x, 0, 0, 0]) 2 [[1, 2], [3, 4]] h1 h2 h3
  exact ⟨⟨h1, h2, h3⟩,
    ⟨hmain.1, hmain.2.1, hmain.2.2.1, hmain.2.2.2.1, fun i hi => hmain.2.2.2.2 i hi⟩⟩

end HnswSpec
